import Mathlib

/-!
Verification development for the telebot menu/action engine.

The definitions below are a shallow embedding of the runtime engine
(`src/engine/engine.ts`), the layout/button/list builders
(`src/menu/layout.ts`, `src/menu/button.ts`, `src/menu/list.ts`) and the
conversation helper (`src/conversation/conversation.ts`).

Conventions of the embedding:
* JavaScript strings are Lean `String`s; token manipulation is done on
  `List Char` with structural recursion so that every definition reduces in
  the kernel.
* JavaScript numbers are modelled as `Int`.  Payload `id` values in this
  code base are integers or strings, so the model of `Number(s)` /
  `parseInt(s, 10)` covers the integer fragment: a (sign-prefixed) digit
  string parses to the corresponding integer, the empty / all-whitespace
  string converts to `0` (for `Number`), and everything else is `NaN`
  (`none`).  Fractional, hexadecimal and `Infinity` literals are outside the
  modelled payload domain; theorems that need a string *not* to be numeric
  assume a character that can occur in no JavaScript numeric literal at
  all, so that the model and the platform agree on the quantified domain.
* `undefined` is `Option.none`.
-/

namespace Telebot

/-! ### JavaScript primitive models: digits, `String(n)`, `Number(s)`, `parseInt` -/

/-- Character for a decimal digit value (`0 ≤ d ≤ 9`). -/
def digitChar (d : Nat) : Char := Char.ofNat (48 + d)

/-- Decimal digit value of a character. -/
def charDigit (c : Char) : Nat := c.toNat - 48

/-- Little-endian decimal digits of `n`, with `fuel` bounding the recursion
(`fuel ≥ n` suffices).  `natDigitsRev _ 0 = []`. -/
def natDigitsRev : Nat → Nat → List Nat
  | 0, _ => []
  | _ + 1, 0 => []
  | fuel + 1, n => n % 10 :: natDigitsRev fuel (n / 10)

/-- Big-endian decimal digit characters of `n` (empty for `0`). -/
def natChars (n : Nat) : List Char := (natDigitsRev n n).reverse.map digitChar

/-- Model of JavaScript `String(n)` for a natural number. -/
def natStr (n : Nat) : String := if n = 0 then "0" else ⟨natChars n⟩

/-- Model of JavaScript `String(n)` for an integer. -/
def intStr (n : Int) : String :=
  if n < 0 then "-" ++ natStr n.natAbs else natStr n.natAbs

/-- Value of a little-endian decimal digit list. -/
def ofDigitsRev : List Nat → Nat
  | [] => 0
  | d :: ds => d + 10 * ofDigitsRev ds

theorem ofDigitsRev_natDigitsRev (fuel n : Nat) (h : n ≤ fuel) :
    ofDigitsRev (natDigitsRev fuel n) = n := by
  induction fuel generalizing n with
  | zero => interval_cases n; rfl
  | succ f ih =>
    cases n with
    | zero => rfl
    | succ m =>
      have hlt : (m + 1) / 10 ≤ f := by
        have := Nat.div_lt_self (Nat.succ_pos m) (by norm_num : (1:Nat) < 10)
        omega
      simp only [natDigitsRev, ofDigitsRev, ih _ hlt]
      omega

theorem natDigitsRev_lt_ten (fuel n : Nat) :
    ∀ d ∈ natDigitsRev fuel n, d < 10 := by
  induction fuel generalizing n with
  | zero => intro d hd; simp [natDigitsRev] at hd
  | succ f ih =>
    intro d hd
    cases n with
    | zero => simp [natDigitsRev] at hd
    | succ m =>
      simp only [natDigitsRev, List.mem_cons] at hd
      rcases hd with h | h
      · subst h; exact Nat.mod_lt _ (by norm_num)
      · exact ih _ d h

/-- Accumulating decimal parser over big-endian digit characters; `none` as
soon as a non-digit character is met. -/
def parseNatAux (acc : Nat) : List Char → Option Nat
  | [] => some acc
  | c :: cs => if c.isDigit then parseNatAux (acc * 10 + charDigit c) cs else none

/-- Parse a big-endian all-digits character list. -/
def parseNat (cs : List Char) : Option Nat := parseNatAux 0 cs

theorem digitChar_isDigit {d : Nat} (h : d < 10) : (digitChar d).isDigit = true := by
  interval_cases d <;> decide

theorem charDigit_digitChar {d : Nat} (h : d < 10) : charDigit (digitChar d) = d := by
  interval_cases d <;> decide

theorem parseNatAux_all_digits (cs : List Char) (h : ∀ c ∈ cs, c.isDigit) (acc : Nat) :
    parseNatAux acc cs = some (cs.foldl (fun a c => a * 10 + charDigit c) acc) := by
  induction cs generalizing acc with
  | nil => rfl
  | cons c tl ih =>
    have hc : c.isDigit := h c (List.mem_cons_self _ _)
    simp only [parseNatAux, hc, if_true, List.foldl_cons]
    exact ih (fun x hx => h x (List.mem_cons_of_mem _ hx)) _

theorem foldl_digits_value (ds : List Nat) (hds : ∀ d ∈ ds, d < 10) (acc : Nat) :
    (ds.reverse.map digitChar).foldl (fun a c => a * 10 + charDigit c) acc
      = acc * 10 ^ ds.length + ofDigitsRev ds := by
  induction ds generalizing acc with
  | nil => simp [ofDigitsRev]
  | cons d tl ih =>
    have hd : d < 10 := hds d (List.mem_cons_self _ _)
    have htl : ∀ x ∈ tl, x < 10 := fun x hx => hds x (List.mem_cons_of_mem _ hx)
    simp only [List.reverse_cons, List.map_append, List.map_cons, List.map_nil,
      List.foldl_append, List.foldl_cons, List.foldl_nil, ih htl acc,
      charDigit_digitChar hd, ofDigitsRev, List.length_cons]
    ring

theorem natChars_digits (n : Nat) : ∀ c ∈ natChars n, c.isDigit := by
  intro c hc
  simp only [natChars, List.mem_map, List.mem_reverse] at hc
  obtain ⟨d, hd, rfl⟩ := hc
  exact digitChar_isDigit (natDigitsRev_lt_ten n n d hd)

/-- The decimal printer round-trips through the decimal parser. -/
theorem parseNat_natChars (n : Nat) : parseNat (natChars n) = some n := by
  unfold parseNat
  rw [parseNatAux_all_digits _ (natChars_digits n)]
  unfold natChars
  rw [foldl_digits_value _ (natDigitsRev_lt_ten n n)]
  simp [ofDigitsRev_natDigitsRev n n le_rfl]

theorem parseNat_natStr (n : Nat) : parseNat (natStr n).data = some n := by
  by_cases h : n = 0
  · subst h; decide
  · simp only [natStr, h, if_false]
    exact parseNat_natChars n

/-! Whitespace and the `Number(s)` model. -/

/-- JavaScript whitespace characters (the ASCII fragment). -/
def jsWhitespace (c : Char) : Bool :=
  c = ' ' || c = '\t' || c = '\n' || c = '\r' || c = '\x0b' || c = '\x0c'

/-- Trim JavaScript whitespace on both sides. -/
def trimC (cs : List Char) : List Char :=
  ((cs.dropWhile jsWhitespace).reverse.dropWhile jsWhitespace).reverse

theorem dropWhile_eq_self_of_none {p : Char → Bool} {cs : List Char}
    (h : ∀ c ∈ cs, ¬ p c) : cs.dropWhile p = cs := by
  cases cs with
  | nil => rfl
  | cons c tl =>
    have : p c = false := by
      have := h c (List.mem_cons_self _ _); simpa using this
    simp [List.dropWhile, this]

theorem trimC_eq_self {cs : List Char} (h : ∀ c ∈ cs, ¬ jsWhitespace c) :
    trimC cs = cs := by
  unfold trimC
  rw [dropWhile_eq_self_of_none h,
    dropWhile_eq_self_of_none (by intro c hc; exact h c (List.mem_reverse.mp hc)),
    List.reverse_reverse]

/-- Model of JavaScript `Number(s)` on the integer fragment (see the header
comment): trimmed-empty gives `0`, an optional sign followed by digits gives
the integer, anything else is `NaN` (`none`). -/
def jsStrToNumC (cs : List Char) : Option Int :=
  match trimC cs with
  | [] => some 0
  | c :: ds =>
    if c = '-' then
      if ds.isEmpty then none
      else if ds.all Char.isDigit then (parseNat ds).map (fun k => -(Int.ofNat k)) else none
    else if c = '+' then
      if ds.isEmpty then none
      else if ds.all Char.isDigit then (parseNat ds).map Int.ofNat else none
    else
      if (c :: ds).all Char.isDigit then (parseNat (c :: ds)).map Int.ofNat
      else none

/-- `Number(s)` on a Lean string. -/
def jsStrToNum (s : String) : Option Int := jsStrToNumC s.data

theorem digitChar_not_ws {d : Nat} (h : d < 10) : ¬ jsWhitespace (digitChar d) := by
  interval_cases d <;> decide

theorem natChars_not_ws (n : Nat) : ∀ c ∈ natChars n, ¬ jsWhitespace c := by
  intro c hc
  simp only [natChars, List.mem_map, List.mem_reverse] at hc
  obtain ⟨d, hd, rfl⟩ := hc
  exact digitChar_not_ws (natDigitsRev_lt_ten n n d hd)

theorem digitChar_ne_minus {d : Nat} (h : d < 10) : digitChar d ≠ '-' := by
  interval_cases d <;> decide

theorem digitChar_ne_plus {d : Nat} (h : d < 10) : digitChar d ≠ '+' := by
  interval_cases d <;> decide

theorem natChars_ne_nil_of_pos {n : Nat} (h : 0 < n) : natChars n ≠ [] := by
  intro hnil
  have := parseNat_natChars n
  rw [hnil] at this
  simp [parseNat, parseNatAux] at this
  omega

/-- `Number(String(n)) = n` for every integer `n`. -/
theorem jsStrToNum_intStr (n : Int) : jsStrToNum (intStr n) = some n := by
  unfold jsStrToNum intStr
  by_cases hneg : n < 0
  · simp only [hneg, if_true]
    have hpos : 0 < n.natAbs := by omega
    have habs : n.natAbs ≠ 0 := by omega
    have hdata : ("-" ++ natStr n.natAbs).data = '-' :: natChars n.natAbs := by
      simp [natStr, habs, String.data_append]
    rw [hdata]
    unfold jsStrToNumC
    rw [trimC_eq_self (by
      intro c hc
      rcases List.mem_cons.mp hc with h | h
      · subst h; decide
      · exact natChars_not_ws _ c h)]
    cases hcs : natChars n.natAbs with
    | nil => exact absurd hcs (natChars_ne_nil_of_pos hpos)
    | cons c0 tl =>
      have hall : (c0 :: tl).all Char.isDigit := by
        rw [← hcs]
        exact List.all_eq_true.mpr fun c hc => natChars_digits _ c hc
      simp only [if_true, List.isEmpty_cons, hall, Bool.false_eq_true, if_false, ite_true,
        ite_false]
      rw [← hcs, parseNat_natChars]
      simp only [Option.map, Option.some.injEq, Int.ofNat_eq_natCast]
      omega
  · simp only [hneg, if_false]
    by_cases h0 : n.natAbs = 0
    · have : n = 0 := by omega
      subst this; decide
    · simp only [natStr, h0, if_false]
      unfold jsStrToNumC
      rw [trimC_eq_self (natChars_not_ws _)]
      cases hcs : natChars n.natAbs with
      | nil => exact absurd hcs (natChars_ne_nil_of_pos (by omega))
      | cons c0 tl =>
        have hc0 : c0 ∈ natChars n.natAbs := by rw [hcs]; exact List.mem_cons_self _ _
        obtain ⟨d, hd, hc0d⟩ : ∃ d, d ∈ natDigitsRev n.natAbs n.natAbs ∧ digitChar d = c0 := by
          simpa [natChars, List.mem_map, List.mem_reverse] using hc0
        have hdlt := natDigitsRev_lt_ten _ _ d hd
        have hne1 : c0 ≠ '-' := hc0d ▸ digitChar_ne_minus hdlt
        have hne2 : c0 ≠ '+' := hc0d ▸ digitChar_ne_plus hdlt
        have hall : (c0 :: tl).all Char.isDigit := by
          rw [← hcs]
          exact List.all_eq_true.mpr fun c hc => natChars_digits _ c hc
        simp only [hne1, hne2, if_false, hall, if_true, ite_false, ite_true]
        rw [← hcs, parseNat_natChars]
        simp only [Option.map, Option.some.injEq, Int.ofNat_eq_natCast]
        omega

/-! Characters that could occur in some JavaScript numeric literal. -/

/-- Characters that can appear in a JavaScript numeric literal (digits, hex
digits, radix/exponent/sign markers, the letters of `Infinity`/`NaN`) or in
whitespace.  A string containing any character outside this set is `NaN`
under `Number(·)`. -/
def jsNumericish (c : Char) : Bool :=
  jsWhitespace c || c.isDigit ||
  c ∈ (['a','b','c','d','e','f','i','n','o','t','x','y',
        'A','B','C','D','E','F','I','N','O','X','Y',
        '.','+','-'] : List Char)

theorem mem_dropWhile_of_not {p : Char → Bool} {cs : List Char} {c : Char}
    (hc : c ∈ cs) (hnp : ¬ p c) : c ∈ cs.dropWhile p := by
  induction cs with
  | nil => simp at hc
  | cons a tl ih =>
    by_cases hpa : p a
    · rw [List.dropWhile_cons_of_pos hpa]
      rcases List.mem_cons.mp hc with h | h
      · subst h; exact absurd hpa hnp
      · exact ih h
    · rw [List.dropWhile_cons_of_neg hpa]
      exact hc

theorem mem_trimC_of_not_ws {cs : List Char} {c : Char}
    (hc : c ∈ cs) (hnw : ¬ jsWhitespace c) : c ∈ trimC cs := by
  unfold trimC
  rw [List.mem_reverse]
  exact mem_dropWhile_of_not (List.mem_reverse.mpr (mem_dropWhile_of_not hc hnw)) hnw

/-- A string containing a definitely-non-numeric character is `NaN` under
`Number(·)`. -/
theorem jsStrToNumC_none_of_bad {cs : List Char} {c : Char}
    (hc : c ∈ cs) (hbad : ¬ jsNumericish c) : jsStrToNumC cs = none := by
  have hnw : ¬ jsWhitespace c := fun h => hbad (by simp [jsNumericish, h])
  have hnd : ¬ c.isDigit := fun h => hbad (by simp [jsNumericish, h])
  have hnm : c ≠ '-' := fun h => hbad (by subst h; decide)
  have hnp : c ≠ '+' := fun h => hbad (by subst h; decide)
  have hmem : c ∈ trimC cs := mem_trimC_of_not_ws hc hnw
  unfold jsStrToNumC
  cases ht : trimC cs with
  | nil => rw [ht] at hmem; simp at hmem
  | cons c0 ds =>
    rw [ht] at hmem
    by_cases h0m : c0 = '-'
    · subst h0m
      simp only [if_true, ite_true]
      have hcds : c ∈ ds := by
        rcases List.mem_cons.mp hmem with h | h
        · exact absurd h hnm
        · exact h
      have : ¬ ds.all Char.isDigit := by
        intro hall
        exact hnd (List.all_eq_true.mp hall c hcds)
      simp [this]
    · by_cases h0p : c0 = '+'
      · subst h0p
        simp only [h0m, if_false, ite_false, if_true, ite_true]
        have hcds : c ∈ ds := by
          rcases List.mem_cons.mp hmem with h | h
          · exact absurd h hnp
          · exact h
        have : ¬ ds.all Char.isDigit := by
          intro hall
          exact hnd (List.all_eq_true.mp hall c hcds)
        simp [this]
      · have : ¬ (c0 :: ds).all Char.isDigit := by
          intro hall
          exact hnd (List.all_eq_true.mp hall c hmem)
        simp [h0m, h0p, this]

/-- Model of JavaScript `parseInt(s, 10)` on the integer fragment: leading
whitespace skipped, optional sign, then the maximal digit prefix; `NaN`
(`none`) when that prefix is empty. -/
def jsParseIntC (cs : List Char) : Option Int :=
  match cs.dropWhile jsWhitespace with
  | [] => none
  | c :: ds =>
    if c = '-' then
      let digs := ds.takeWhile Char.isDigit
      if digs.isEmpty then none else (parseNat digs).map (fun k => -(Int.ofNat k))
    else if c = '+' then
      let digs := ds.takeWhile Char.isDigit
      if digs.isEmpty then none else (parseNat digs).map Int.ofNat
    else
      let digs := (c :: ds).takeWhile Char.isDigit
      if digs.isEmpty then none else (parseNat digs).map Int.ofNat

/-- `parseInt` on a Lean string. -/
def jsParseInt (s : String) : Option Int := jsParseIntC s.data

theorem takeWhile_eq_self_of_all {p : Char → Bool} {cs : List Char}
    (h : ∀ c ∈ cs, p c) : cs.takeWhile p = cs := by
  induction cs with
  | nil => rfl
  | cons a tl ih =>
    rw [List.takeWhile_cons_of_pos (h a (List.mem_cons_self _ _))]
    exact congrArg _ (ih fun c hc => h c (List.mem_cons_of_mem _ hc))

/-- `parseInt(String(n), 10) = n` for a natural number `n`. -/
theorem jsParseInt_natStr (n : Nat) : jsParseInt (natStr n) = some (Int.ofNat n) := by
  unfold jsParseInt
  by_cases h0 : n = 0
  · subst h0; decide
  · simp only [natStr, h0, if_false]
    unfold jsParseIntC
    rw [dropWhile_eq_self_of_none (natChars_not_ws n)]
    cases hcs : natChars n with
    | nil => exact absurd hcs (natChars_ne_nil_of_pos (Nat.pos_of_ne_zero h0))
    | cons c0 tl =>
      have hc0 : c0 ∈ natChars n := by rw [hcs]; exact List.mem_cons_self _ _
      obtain ⟨d, hd, hc0d⟩ : ∃ d, d ∈ natDigitsRev n n ∧ digitChar d = c0 := by
        simpa [natChars, List.mem_map, List.mem_reverse] using hc0
      have hdlt := natDigitsRev_lt_ten _ _ d hd
      have hne1 : c0 ≠ '-' := hc0d ▸ digitChar_ne_minus hdlt
      have hne2 : c0 ≠ '+' := hc0d ▸ digitChar_ne_plus hdlt
      have hall : ∀ c ∈ c0 :: tl, Char.isDigit c := by
        rw [← hcs]; exact natChars_digits n
      simp only [hne1, hne2, if_false, ite_false]
      rw [takeWhile_eq_self_of_all hall, ← hcs]
      have hne := natChars_ne_nil_of_pos (Nat.pos_of_ne_zero h0)
      rw [hcs] at hne ⊢
      simp only [List.isEmpty_cons, Bool.false_eq_true, if_false, ite_false]
      rw [← hcs, parseNat_natChars]
      rfl

/-! ### Token-string helpers (JavaScript `split` / `indexOf` / `slice`) -/

/-- JavaScript `s.split(sep)` for a one-character separator. -/
def splitChar (sep : Char) : List Char → List (List Char)
  | [] => [[]]
  | c :: cs =>
    let r := splitChar sep cs
    if c = sep then [] :: r
    else
      match r with
      | h :: t => (c :: h) :: t
      | [] => [[c]]

/-- Split a character list at the first occurrence of `sep`
(JavaScript `indexOf` + two `slice`s); `none` when `sep` does not occur. -/
def breakAtChar (sep : Char) : List Char → Option (List Char × List Char)
  | [] => none
  | c :: cs =>
    if c = sep then some ([], cs)
    else (breakAtChar sep cs).map (fun p => (c :: p.1, p.2))

/-- `p` is a leading piece of `s` (JavaScript `startsWith`). -/
def leadsWithC : List Char → List Char → Bool
  | [], _ => true
  | _ :: _, [] => false
  | p :: ps, c :: cs => p = c && leadsWithC ps cs

/-- JavaScript `s.startsWith(pre)`. -/
def sLeadsWith (pre s : String) : Bool := leadsWithC pre.data s.data

/-! ### Payload values and the JSON flat-object codec

Payloads attached to buttons (`ButtonBuilder.payload`) are flat JSON
objects whose values are numbers or strings; the model represents them as
association lists in insertion order.  `JSON.stringify` emits
minimal-whitespace object notation; the model's `stringifyFlat`/
`jsonParseFlat` cover that fragment (string escaping is outside the model:
theorems about the JSON path assume quote- and backslash-free strings, for
which the platform emits exactly this unescaped form). -/

/-- A JavaScript payload value: a number or a string. -/
inductive JVal where
  | num (n : Int)
  | str (s : String)
deriving DecidableEq

/-- A flat payload object in insertion order. -/
abbrev Payload := List (String × JVal)

/-- JavaScript `String(v)`. -/
def jsValStr : JVal → String
  | .num n => intStr n
  | .str s => s

/-- Quote a string for JSON output (escape-free fragment). -/
def jsonQuote (s : String) : String := "\"" ++ s ++ "\""

/-- JSON form of a payload value. -/
def jvalJson : JVal → String
  | .num n => intStr n
  | .str s => jsonQuote s

/-- JSON form of one `key:value` entry. -/
def entryJson (kv : String × JVal) : String := jsonQuote kv.1 ++ ":" ++ jvalJson kv.2

/-- Comma-joined JSON entries (JavaScript `Array.prototype.join(",")`). -/
def entriesJson : Payload → String
  | [] => ""
  | [kv] => entryJson kv
  | kv :: rest => entryJson kv ++ "," ++ entriesJson rest

/-- Model of `JSON.stringify` on a flat payload object. -/
def stringifyFlat (ps : Payload) : String := "\x7b" ++ entriesJson ps ++ "\x7d"

/-- String-literal body parser: consume until the closing quote. -/
def parseJStringAux (acc : List Char) : List Char → Option (String × List Char)
  | [] => none
  | c :: cs => if c = '"' then some (⟨acc.reverse⟩, cs) else parseJStringAux (c :: acc) cs

/-- JSON string-literal parser. -/
def parseJString : List Char → Option (String × List Char)
  | [] => none
  | c :: cs => if c = '"' then parseJStringAux [] cs else none

/-- JSON integer-literal parser (maximal digit munch after an optional
minus sign). -/
def parseJNum : List Char → Option (Int × List Char)
  | [] => none
  | c :: ds =>
    if c = '-' then
      if (ds.takeWhile Char.isDigit).isEmpty then none
      else (parseNat (ds.takeWhile Char.isDigit)).map
        (fun k => (-(Int.ofNat k), ds.dropWhile Char.isDigit))
    else
      if ((c :: ds).takeWhile Char.isDigit).isEmpty then none
      else (parseNat ((c :: ds).takeWhile Char.isDigit)).map
        (fun k => (Int.ofNat k, (c :: ds).dropWhile Char.isDigit))

/-- JSON value parser on the number/string fragment. -/
def parseJVal : List Char → Option (JVal × List Char)
  | [] => none
  | c :: cs =>
    if c = '"' then (parseJStringAux [] cs).map (fun p => (JVal.str p.1, p.2))
    else (parseJNum (c :: cs)).map (fun p => (JVal.num p.1, p.2))

/-- Parser for a non-empty comma-separated entry sequence; stops in front
of the first character that is neither `,` after an entry nor part of one. -/
def parseEntriesAux : Nat → List Char → Option (Payload × List Char)
  | 0, _ => none
  | fuel + 1, cs =>
    match parseJString cs with
    | none => none
    | some (k, cs1) =>
      match cs1 with
      | [] => none
      | c :: cs2 =>
        if c = ':' then
          match parseJVal cs2 with
          | none => none
          | some (v, cs3) =>
            match cs3 with
            | c2 :: cs4 =>
              if c2 = ',' then
                (parseEntriesAux fuel cs4).map (fun p => ((k, v) :: p.1, p.2))
              else some ([(k, v)], cs3)
            | [] => some ([(k, v)], [])
        else none

/-- Model of `JSON.parse` on the flat-object fragment; `none` is a thrown
`SyntaxError` (caught and swallowed by the decoders that use it). -/
def jsonParseFlat (s : String) : Option Payload :=
  match s.data with
  | [] => none
  | c :: cs =>
    if c = '{' then
      if cs = ['}'] then some []
      else
        match parseEntriesAux (cs.length + 1) cs with
        | some (es, rest) => if rest = ['}'] then some es else none
        | none => none
    else none

theorem parseJStringAux_closed (s : List Char) (hq : '"' ∉ s) (rest : List Char)
    (acc : List Char) :
    parseJStringAux acc (s ++ '"' :: rest) = some (⟨acc.reverse ++ s⟩, rest) := by
  induction s generalizing acc with
  | nil => simp [parseJStringAux]
  | cons c tl ih =>
    have hc : c ≠ '"' := fun h => hq (h ▸ List.mem_cons_self _ _)
    have htl : '"' ∉ tl := fun h => hq (List.mem_cons_of_mem _ h)
    simp only [List.cons_append, parseJStringAux, hc, if_false, ite_false]
    simpa using ih htl (c :: acc)

theorem parseJString_quoted (s : String) (hq : '"' ∉ s.data) (rest : List Char) :
    parseJString ((jsonQuote s).data ++ rest) = some (s, rest) := by
  have hdata : (jsonQuote s).data ++ rest = '"' :: (s.data ++ '"' :: rest) := by
    simp [jsonQuote, String.data_append]
  rw [hdata]
  simp only [parseJString, if_true, ite_true]
  simpa using parseJStringAux_closed s.data hq rest []

theorem takeWhile_append_all {p : Char → Bool} {xs rest : List Char}
    (hxs : ∀ c ∈ xs, p c) (hrest : ∀ c, rest.head? = some c → p c = false) :
    (xs ++ rest).takeWhile p = xs ∧ (xs ++ rest).dropWhile p = rest := by
  induction xs with
  | nil =>
    simp only [List.nil_append]
    cases rest with
    | nil => simp
    | cons r rs =>
      have hr : p r = false := hrest r rfl
      simp [List.takeWhile_cons, List.dropWhile_cons, hr]
  | cons x xs ih =>
    have hx : p x := hxs x (List.mem_cons_self _ _)
    have ihh := ih (fun c hc => hxs c (List.mem_cons_of_mem _ hc))
    simp only [List.cons_append, List.takeWhile_cons, List.dropWhile_cons, hx, if_true,
      ite_true, List.cons.injEq, true_and]
    exact ⟨ihh.1, ihh.2⟩

theorem digitChar_ne_quote {d : Nat} (h : d < 10) : digitChar d ≠ '"' := by
  interval_cases d <;> decide

theorem isDigit_ne_minus {c : Char} (h : c.isDigit) : c ≠ '-' := by
  intro h'; subst h'; revert h; decide

theorem natStr_digits (m : Nat) : ∀ c ∈ (natStr m).data, c.isDigit := by
  by_cases h : m = 0
  · subst h; decide
  · simp only [natStr, h, if_false]
    exact natChars_digits m

theorem natStr_data_ne_nil (m : Nat) : (natStr m).data ≠ [] := by
  by_cases h : m = 0
  · subst h; decide
  · simp only [natStr, h, if_false]
    exact natChars_ne_nil_of_pos (Nat.pos_of_ne_zero h)

theorem list_isEmpty_false {α : Type} {xs : List α} (h : xs ≠ []) :
    xs.isEmpty = false := by
  cases xs with
  | nil => exact absurd rfl h
  | cons a b => rfl

/-- The JSON number parser inverts the integer printer, as long as the
remaining input does not begin with a digit. -/
theorem parseJNum_intStr (n : Int) (rest : List Char)
    (hrest : ∀ c, rest.head? = some c → c.isDigit = false) :
    parseJNum ((intStr n).data ++ rest) = some (n, rest) := by
  by_cases hneg : n < 0
  · have habs : n.natAbs ≠ 0 := by omega
    have hdata : (intStr n).data ++ rest = '-' :: (natChars n.natAbs ++ rest) := by
      simp [intStr, hneg, natStr, habs, String.data_append]
    rw [hdata]
    have htd := takeWhile_append_all (p := Char.isDigit) (natChars_digits n.natAbs) hrest
    have hie : (natChars n.natAbs).isEmpty = false :=
      list_isEmpty_false (natChars_ne_nil_of_pos (by omega))
    simp only [parseJNum, if_true, ite_true, hie, Bool.false_eq_true, if_false, ite_false,
      htd.1, htd.2, parseNat_natChars, Option.map, Option.some.injEq, Prod.mk.injEq,
      Int.ofNat_eq_natCast]
    constructor
    · omega
    · trivial
  · have hdata : (intStr n).data = (natStr n.natAbs).data := by
      simp [intStr, hneg]
    rw [hdata]
    cases hcs : (natStr n.natAbs).data with
    | nil => exact absurd hcs (natStr_data_ne_nil _)
    | cons c0 tl =>
      have hall : ∀ c ∈ c0 :: tl, c.isDigit := by
        rw [← hcs]; exact natStr_digits _
      have hc0 : c0 ≠ '-' := isDigit_ne_minus (hall c0 (List.mem_cons_self _ _))
      have htd := takeWhile_append_all (p := Char.isDigit) hall hrest
      have hie : (c0 :: tl).isEmpty = false := rfl
      have hpn : parseNat (c0 :: tl) = some n.natAbs := by
        rw [← hcs]; exact parseNat_natStr _
      simp only [List.cons_append] at htd hie ⊢
      simp only [parseJNum, hc0, if_false, ite_false, hie, Bool.false_eq_true,
        htd.1, htd.2, hpn, Option.map, Option.some.injEq, Prod.mk.injEq,
        Int.ofNat_eq_natCast]
      constructor
      · omega
      · trivial

/-- Escape-free payload values: the JSON fragment the model covers. -/
def jsonSafe : JVal → Prop
  | .num _ => True
  | .str s => '"' ∉ s.data

theorem isDigit_ne_quote {c : Char} (h : c.isDigit) : c ≠ '"' := by
  intro h'; subst h'; revert h; decide

theorem intStr_mem (n : Int) : ∀ c ∈ (intStr n).data, c = '-' ∨ c.isDigit := by
  intro c hc
  by_cases hneg : n < 0
  · have habs : n.natAbs ≠ 0 := by omega
    have hdata : (intStr n).data = '-' :: natChars n.natAbs := by
      simp [intStr, hneg, natStr, habs, String.data_append]
    rw [hdata] at hc
    rcases List.mem_cons.mp hc with h | h
    · exact Or.inl h
    · exact Or.inr (natChars_digits _ c h)
  · have hdata : (intStr n).data = (natStr n.natAbs).data := by simp [intStr, hneg]
    rw [hdata] at hc
    exact Or.inr (natStr_digits _ c hc)

/-- The JSON value parser inverts the value printer. -/
theorem parseJVal_jvalJson (v : JVal) (rest : List Char) (hv : jsonSafe v)
    (hrest : ∀ c, rest.head? = some c → c.isDigit = false) :
    parseJVal ((jvalJson v).data ++ rest) = some (v, rest) := by
  cases v with
  | str s =>
    have hq : '"' ∉ s.data := hv
    have hdata : (jvalJson (JVal.str s)).data ++ rest = '"' :: (s.data ++ '"' :: rest) := by
      simp [jvalJson, jsonQuote, String.data_append]
    rw [hdata]
    simp only [parseJVal, if_true, ite_true]
    rw [parseJStringAux_closed s.data hq rest []]
    simp
  | num n =>
    obtain ⟨c0, tl, hcs⟩ : ∃ c0 tl, (intStr n).data = c0 :: tl := by
      by_cases hneg : n < 0
      · have habs : n.natAbs ≠ 0 := by omega
        exact ⟨'-', natChars n.natAbs, by
          simp [intStr, hneg, natStr, habs, String.data_append]⟩
      · have hdata : (intStr n).data = (natStr n.natAbs).data := by simp [intStr, hneg]
        cases hd : (natStr n.natAbs).data with
        | nil => exact absurd hd (natStr_data_ne_nil _)
        | cons a b => exact ⟨a, b, by rw [hdata, hd]⟩
    have hc0 : c0 ≠ '"' := by
      have hmem : c0 ∈ (intStr n).data := hcs ▸ List.mem_cons_self _ _
      rcases intStr_mem n c0 hmem with h | h
      · subst h; decide
      · exact isDigit_ne_quote h
    have hnum := parseJNum_intStr n rest hrest
    rw [show (jvalJson (JVal.num n)).data = (intStr n).data from rfl, hcs]
    rw [hcs] at hnum
    rw [List.cons_append] at hnum ⊢
    simp only [parseJVal, hc0, if_false, ite_false]
    rw [hnum]
    rfl

/-- Escape-free entries for the JSON path. -/
def goodEntry (kv : String × JVal) : Prop := '"' ∉ kv.1.data ∧ jsonSafe kv.2

theorem head_not_digit_rbrace :
    ∀ c : Char, (['}'] : List Char).head? = some c → c.isDigit = false := by
  intro c hc
  simp only [List.head?_cons, Option.some.injEq] at hc
  subst hc; decide

theorem head_not_digit_comma (xs : List Char) :
    ∀ c : Char, (',' :: xs).head? = some c → c.isDigit = false := by
  intro c hc
  simp only [List.head?_cons, Option.some.injEq] at hc
  subst hc; decide

/-- The entries parser inverts the comma-joined entries printer. -/
theorem parseEntriesAux_entriesJson (ps : Payload) (hps : ps ≠ [])
    (hgood : ∀ kv ∈ ps, goodEntry kv) :
    ∀ fuel, ps.length ≤ fuel →
      parseEntriesAux fuel ((entriesJson ps).data ++ ['}']) = some (ps, ['}']) := by
  induction ps with
  | nil => exact absurd rfl hps
  | cons kv rest ih =>
    intro fuel hfuel
    obtain ⟨f, rfl⟩ : ∃ f, fuel = f + 1 := ⟨fuel - 1, by simp at hfuel; omega⟩
    obtain ⟨hk, hv⟩ := hgood kv (List.mem_cons_self _ _)
    cases rest with
    | nil =>
      have hdata : (entriesJson [kv]).data ++ ['}']
          = (jsonQuote kv.1).data ++ (':' :: ((jvalJson kv.2).data ++ ['}'])) := by
        simp [entriesJson, entryJson, String.data_append]
      rw [hdata]
      simp only [parseEntriesAux]
      rw [parseJString_quoted kv.1 hk _]
      simp only [if_true, ite_true]
      rw [parseJVal_jvalJson kv.2 _ hv head_not_digit_rbrace]
      rfl
    | cons kv2 rest2 =>
      have hdata : (entriesJson (kv :: kv2 :: rest2)).data ++ ['}']
          = (jsonQuote kv.1).data
            ++ (':' :: ((jvalJson kv.2).data
              ++ (',' :: ((entriesJson (kv2 :: rest2)).data ++ ['}'])))) := by
        simp [entriesJson, entryJson, String.data_append]
      rw [hdata]
      simp only [parseEntriesAux]
      rw [parseJString_quoted kv.1 hk _]
      simp only [if_true, ite_true]
      rw [parseJVal_jvalJson kv.2 _ hv (head_not_digit_comma _)]
      simp only [if_true, ite_true]
      rw [ih (by simp) (fun e he => hgood e (List.mem_cons_of_mem _ he)) f
        (by simp at hfuel ⊢; omega)]
      rfl

theorem entriesJson_length_ge (ps : Payload) :
    ps.length ≤ (entriesJson ps).data.length := by
  induction ps with
  | nil => simp [entriesJson]
  | cons kv rest ih =>
    cases rest with
    | nil =>
      simp [entriesJson, entryJson, jsonQuote, String.data_append]
    | cons kv2 rest2 =>
      have hsum : (entriesJson (kv :: kv2 :: rest2)).data.length
          = (entryJson kv).data.length + 1 + (entriesJson (kv2 :: rest2)).data.length := by
        simp [entriesJson, String.data_append]
        omega
      rw [hsum]
      simp only [List.length_cons] at ih ⊢
      omega

theorem entryJson_length_pos (kv : String × JVal) : 0 < (entryJson kv).data.length := by
  simp [entryJson, jsonQuote, String.data_append]

/-- `JSON.parse ∘ JSON.stringify` is the identity on flat, escape-free
payload objects. -/
theorem jsonParseFlat_stringifyFlat (ps : Payload)
    (hgood : ∀ kv ∈ ps, goodEntry kv) :
    jsonParseFlat (stringifyFlat ps) = some ps := by
  cases hps : ps with
  | nil => decide
  | cons kv rest =>
    rw [← hps]
    have hpsne : ps ≠ [] := by rw [hps]; simp
    have hdata : (stringifyFlat ps).data = '{' :: ((entriesJson ps).data ++ ['}']) := by
      simp [stringifyFlat, String.data_append]
    have hlen : 1 ≤ (entriesJson ps).data.length := by
      have h1 := entriesJson_length_ge ps
      rw [hps] at h1
      rw [hps]
      simp only [List.length_cons] at h1
      omega
    have hne : (entriesJson ps).data ++ ['}'] ≠ ['}'] := by
      intro h
      have hl := congrArg List.length h
      simp only [List.length_append, List.length_cons, List.length_nil] at hl
      omega
    unfold jsonParseFlat
    rw [hdata]
    simp only [if_true, ite_true, hne, if_false, ite_false]
    rw [parseEntriesAux_entriesJson ps hpsne hgood _
      (by
        have h1 := entriesJson_length_ge ps
        simp only [List.length_append, List.length_cons, List.length_nil]
        omega)]

    simp

/-! ### Callback token construction and decoding -/

theorem splitChar_no_sep {sep : Char} {a : List Char} (h : sep ∉ a) :
    splitChar sep a = [a] := by
  induction a with
  | nil => rfl
  | cons c tl ih =>
    have hc : c ≠ sep := fun hh => h (hh ▸ List.mem_cons_self _ _)
    have htl : sep ∉ tl := fun hh => h (List.mem_cons_of_mem _ hh)
    simp only [splitChar, hc, if_false, ite_false, ih htl]

theorem splitChar_append {sep : Char} {a b : List Char} (h : sep ∉ a) :
    splitChar sep (a ++ sep :: b) = a :: splitChar sep b := by
  induction a with
  | nil => simp [splitChar]
  | cons c tl ih =>
    have hc : c ≠ sep := fun hh => h (hh ▸ List.mem_cons_self _ _)
    have htl : sep ∉ tl := fun hh => h (List.mem_cons_of_mem _ hh)
    have hrec := ih htl
    simp only [List.cons_append, splitChar, hc, if_false, ite_false, hrec]
    cases hs : splitChar sep (tl ++ sep :: b) with
    | nil => rw [hs] at hrec; cases hrec
    | cons x xs => rw [hs] at hrec; rw [hrec]

theorem breakAtChar_no_sep {sep : Char} {a : List Char} (h : sep ∉ a) :
    breakAtChar sep a = none := by
  induction a with
  | nil => rfl
  | cons c tl ih =>
    have hc : c ≠ sep := fun hh => h (hh ▸ List.mem_cons_self _ _)
    have htl : sep ∉ tl := fun hh => h (List.mem_cons_of_mem _ hh)
    simp [breakAtChar, hc, ih htl]

theorem breakAtChar_append {sep : Char} {a b : List Char} (h : sep ∉ a) :
    breakAtChar sep (a ++ sep :: b) = some (a, b) := by
  induction a with
  | nil => simp [breakAtChar]
  | cons c tl ih =>
    have hc : c ≠ sep := fun hh => h (hh ▸ List.mem_cons_self _ _)
    have htl : sep ∉ tl := fun hh => h (List.mem_cons_of_mem _ hh)
    simp [breakAtChar, hc, ih htl]

/-- JavaScript `Array.prototype.join(sep)` on character lists. -/
def joinChar (sep : Char) : List (List Char) → List Char
  | [] => []
  | [x] => x
  | x :: xs => x ++ sep :: joinChar sep xs

/-- Is the payload an object with exactly one key, named `id`
(`Object.keys(p).length === 1 && "id" in p`)? -/
def isSingleIdKey : Payload → Bool
  | [(k, _)] => k = "id"
  | _ => false

/-- The payload segment of a callback token as computed by the Render
Pipeline (engine.ts lines 209, 220, 274): a one-key `{id: v}` object becomes
the bare scalar `String(v)`, any other object goes through `JSON.stringify`,
and an absent payload falls back to the button's explicit id or `""`. -/
def payloadToStr (p : Option Payload) (buttonId : Option String) : String :=
  match p with
  | some [(k, v)] => if k = "id" then jsValStr v else stringifyFlat [(k, v)]
  | some ps => stringifyFlat ps
  | none => buttonId.getD ""

/-- Decode of a token's payload segment (`convBuilder` stage D, engine.ts
lines 438–447, and the `ai:` handler lines 855–864): the empty string leaves
the payload undefined, `{`-prefixed text goes through `JSON.parse` (`none`
models the caught-and-swallowed parse error), and otherwise the raw-id
optimization applies: `{id: isNaN(Number(pStr)) ? pStr : Number(pStr)}`. -/
def decodePayloadStr (pStr : String) : Option Payload :=
  if pStr = "" then none
  else if sLeadsWith "\x7b" pStr then jsonParseFlat pStr
  else
    match jsStrToNum pStr with
    | some n => some [("id", JVal.num n)]
    | none => some [("id", JVal.str pStr)]

/-- Encoding of an invoke-action token as built by the Render Pipeline
(engine.ts lines 214/221/275): `a:<actionId>/<originId>:<payloadStr>` (the
inline variant uses the `ai:` prefix). -/
def encodeActionToken (actionId originId pStr : String) : String :=
  "a:" ++ actionId ++ "/" ++ originId ++ ":" ++ pStr

/-- The `a:` pre-check middleware's decode of action id and origin menu id
(engine.ts lines 556–580), including the `""`/`"undefined"` origin
normalization. -/
def decodeActionTarget (data : String) : String × Option String :=
  match splitChar '/' data.data with
  | left :: right :: _ =>
    let actionId : String := ⟨left.drop 2⟩
    let origin : String :=
      match breakAtChar ':' right with
      | some (before, _) => ⟨before⟩
      | none => ⟨right⟩
    (actionId, if origin = "" ∨ origin = "undefined" then none else some origin)
  | _ => (⟨data.data.drop 2⟩, none)

/-- `convBuilder` stage D: payload decoded from the originating callback
token (engine.ts lines 433–448). -/
def decodeActionPayloadD (data : String) : Option Payload :=
  if sLeadsWith "a:" data then
    match splitChar '/' data.data with
    | _ :: right :: _ =>
      match breakAtChar ':' right with
      | some (_, after) => decodePayloadStr ⟨after⟩
      | none => none
    | _ => none
  else none

/-- The `n:` navigation branch's target (engine.ts line 790): `data.slice(2)`. -/
def decodeNavTarget (data : String) : String := ⟨data.data.drop 2⟩

/-- The `p:` pagination branch decode (engine.ts lines 797–801): menu id,
list index, and new page from `data.split(":")` and `parseInt`. -/
def decodePageToken (data : String) : Option (String × Option Int × Option Int) :=
  match splitChar ':' data.data with
  | _ :: m :: l :: pg :: _ => some (⟨m⟩, jsParseIntC l, jsParseIntC pg)
  | _ => none

/-- The `t:` tab branch decode (engine.ts lines 818–821): menu id is
`parts[1]`, the button id is `parts.slice(2).join(":")`. -/
def decodeTabToken (data : String) : Option (String × String) :=
  match splitChar ':' data.data with
  | _ :: m :: rest => some (⟨m⟩, ⟨joinChar ':' rest⟩)
  | _ => none

/-- Route taken by the callback-query dispatcher (engine.ts lines 779–964),
selected purely by token prefix, in the source's branch order.  Malformed
tokens that the renderer never produces (a `p:`/`t:` token with missing
segments) route to `other`. -/
inductive CbRoute where
  | act
  | nav (target : String)
  | page (menuId : String) (listIdx newPage : Option Int)
  | refresh (menuId : String)
  | tab (menuId btnId : String)
  | actInline
  | noop
  | other
deriving DecidableEq

/-- The dispatcher's branch selection. -/
def routeCb (data : String) : CbRoute :=
  if sLeadsWith "a:" data then .act
  else if sLeadsWith "n:" data then .nav (decodeNavTarget data)
  else if sLeadsWith "p:" data then
    match decodePageToken data with
    | some (m, l, p) => .page m l p
    | none => .other
  else if sLeadsWith "r:" data then .refresh ⟨data.data.drop 2⟩
  else if sLeadsWith "t:" data then
    match decodeTabToken data with
    | some (m, b) => .tab m b
    | none => .other
  else if sLeadsWith "ai:" data then .actInline
  else if sLeadsWith "_:" data then .noop
  else .other

/-! ### Context, layout and keyboard model -/

/-- The per-update context, as far as guards and dynamic labels can observe
it in this model. -/
structure Ctx where
  attrs : List (String × String) := []

/-- The minimal synthetic context used during discovery (engine.ts line 78). -/
def mockCtx : Ctx := {}

/-- A button label: a literal or a context-derived function
(`ButtonConfig.label`). -/
inductive DynLabel where
  | lit (s : String)
  | fn (f : Ctx → String)

/-- `resolveLabel` (engine.ts lines 39–44) for a configuration without a
translator (`config.translator` undefined): a function label is applied,
a literal is returned as-is. -/
def resolveLabel (l : DynLabel) (ctx : Ctx) : String :=
  match l with
  | .lit s => s
  | .fn f => f ctx

/-- `passesGuard` (engine.ts lines 49–52). -/
def passesGuard (guard : Option (Ctx → Bool)) (ctx : Ctx) : Bool :=
  match guard with
  | none => true
  | some g => g ctx

/-- A layout write a synchronous tab handler can make before the snapshot
(`layout.text(...)` / `layout.image(...)`). -/
inductive SimpleEl where
  | textE (content : String) (parseMode : Option String := none)
  | imageE (url : String)

/-- Classification result of `ButtonBuilder.action` (button.ts lines
84–99): `ref` is an `ActionRef`, `sync` a synchronous function (its effect
on the layout recorded as the writes it appends), and an async function
becomes `inlineHandler` instead (see `setAction`). -/
inductive BtnAction where
  | ref (id : String)
  | sync (adds : List SimpleEl)

/-- Argument of `ButtonBuilder.action` / `ListBuilder`'s default action
before classification. -/
inductive BtnHandler where
  | ref (id : String)
  | sync (adds : List SimpleEl)
  | async

/-- `ButtonConfig` (types; populated by `ButtonBuilder`, button.ts).
`inlineHandler` records presence of an async inline handler (its body is
never invoked by `buildKeyboard`). -/
structure ButtonConfig where
  label : DynLabel
  buttonId : Option String := none
  url : Option String := none
  forceRow : Bool := false
  guard : Option (Ctx → Bool) := none
  action : Option BtnAction := none
  inlineHandler : Bool := false
  submenu : Option String := none
  payload : Option Payload := none
  isDefault : Bool := false

/-- `ButtonBuilder.action` (button.ts lines 84–99): an async function is
stored as the inline handler, anything else as the action. -/
def setAction (cfg : ButtonConfig) (h : BtnHandler) : ButtonConfig :=
  match h with
  | .async => { cfg with inlineHandler := true, action := none }
  | .ref i => { cfg with action := some (.ref i), inlineHandler := false }
  | .sync a => { cfg with action := some (.sync a), inlineHandler := false }

/-- `ListConfig` (list.ts lines 57–71; defaults `itemsPerPage = 10`,
`columns = 1`).  List items are payload values (`JVal`). -/
structure ListConfig where
  items : List JVal
  itemsPerPage : Nat := 10
  columns : Nat := 1
  renderFn : Option (JVal → ButtonConfig) := none
  action : Option BtnHandler := none

/-- `LayoutElement` (layout.ts lines 17–22). -/
inductive LayoutElement where
  | text (content : String) (parseMode : Option String := none)
  | image (url : String)
  | button (cfg : ButtonConfig)
  | list (cfg : ListConfig)
  | refreshBtn (label : String)

/-- Inject a tab handler's layout write. -/
def simpleToElement : SimpleEl → LayoutElement
  | .textE c pm => .text c pm
  | .imageE u => .image u

/-- `LayoutBuilder`'s observable state: the ordered elements and
`_maxPerRow` (layout.ts lines 30–36). -/
structure Layout where
  elements : List LayoutElement := []
  maxPerRow : Nat := 0

/-- One inline-keyboard cell: a callback button or a URL button. -/
inductive Cell where
  | push (label : String) (data : String)
  | link (label : String) (url : String)
deriving DecidableEq

/-- grammy's `InlineKeyboard`, split into the closed rows and the
currently-open row (`row()` closes the current row, buttons append to the
open one).  `rows` reconstructs the serialized `inline_keyboard`: the open
row comes last, and a fresh keyboard serializes as one empty row, exactly
as in grammy. -/
structure Keyboard where
  closed : List (List Cell) := []
  current : List Cell := []
deriving DecidableEq

/-- Append a cell to the open row (grammy `add`). -/
def Keyboard.addCell (kb : Keyboard) (c : Cell) : Keyboard :=
  { kb with current := kb.current ++ [c] }

/-- Close the current row (grammy `row()`). -/
def Keyboard.nextRow (kb : Keyboard) : Keyboard :=
  { closed := kb.closed ++ [kb.current], current := [] }

/-- The serialized `inline_keyboard` grid. -/
def Keyboard.rows (kb : Keyboard) : List (List Cell) :=
  kb.closed ++ [kb.current]

/-- All cells in layout order. -/
def Keyboard.cells (kb : Keyboard) : List Cell :=
  kb.closed.flatten ++ kb.current

/-- `resolveStableId` (engine.ts lines 62–65). -/
def resolveStableId (menuId : String) (cfg : ButtonConfig) (index : Nat) : String :=
  match cfg.buttonId with
  | some b => "a" ++ b
  | none => "a" ++ menuId ++ "_" ++ natStr index

/-- `pageKey` (engine.ts lines 32–34). -/
def pageKey (chatId : Int) (menuId : String) (listIdx : Nat) : String :=
  intStr chatId ++ ":" ++ menuId ++ ":" ++ natStr listIdx

/-- The module-level pagination map `pageState`, passed explicitly. -/
abbrev PageState := List (String × Nat)

/-- Association-list lookup (JavaScript `Map.get`). -/
def lookupA {β : Type} : List (String × β) → String → Option β
  | [], _ => none
  | (k, v) :: rest, key => if k = key then some v else lookupA rest key

/-! ### The Render Pipeline: `buildKeyboard` -/

/-- Running state of the element loop in `buildKeyboard` (engine.ts lines
145–152). -/
structure BuildState where
  kb : Keyboard := {}
  text : String := ""
  parseMode : Option String := none
  imageUrl : Option String := none
  rowCount : Nat := 0
  listIdx : Nat := 0
  btnIndex : Nat := 0

/-- The callback data chosen for a visible non-URL button element
(engine.ts lines 198–227), given the enclosing menu/action id, the button's
stable index and the enclosing action's current payload. -/
def buttonCbData (menuId : String) (cfg : ButtonConfig) (myIndex : Nat)
    (currentPayload : Option Payload) (btnId : String) : String :=
  if cfg.inlineHandler then
    let sid := resolveStableId menuId cfg myIndex
    let p := if cfg.payload.isSome then cfg.payload else currentPayload
    let pStr := payloadToStr p cfg.buttonId
    let pre := if sLeadsWith "a" menuId then "ai:" else "a:"
    pre ++ sid ++ "/" ++ menuId ++ ":" ++ pStr
  else
    match cfg.submenu with
    | some sm => "n:" ++ sm
    | none =>
      match cfg.action with
      | some (.ref aid) =>
        "a:" ++ aid ++ "/" ++ menuId ++ ":" ++ payloadToStr cfg.payload cfg.buttonId
      | some (.sync _) => "t:" ++ menuId ++ ":" ++ btnId
      | none => "_:" ++ menuId ++ ":" ++ btnId

/-- The `case "button"` arm of `buildKeyboard` (engine.ts lines 183–236). -/
def stepButton (menuId : String) (maxPerRow : Nat) (ctx : Ctx)
    (currentPayload : Option Payload) (st : BuildState) (cfg : ButtonConfig) :
    BuildState :=
  let myIndex := st.btnIndex
  let st := { st with btnIndex := myIndex + 1 }
  if !(passesGuard cfg.guard ctx) then st
  else
    let label := resolveLabel cfg.label ctx
    let btnId := cfg.buttonId.getD label
    let kbRc : Keyboard × Nat :=
      if cfg.forceRow || (decide (maxPerRow > 0) && decide (st.rowCount ≥ maxPerRow)) then
        (st.kb.nextRow, 0)
      else (st.kb, st.rowCount)
    match cfg.url with
    | some u =>
      { st with kb := kbRc.1.addCell (.link label u), rowCount := kbRc.2 + 1 }
    | none =>
      { st with
        kb := kbRc.1.addCell (.push label (buttonCbData menuId cfg myIndex currentPayload btnId))
        rowCount := kbRc.2 + 1 }

/-- The default-action fallback for a list item (engine.ts lines 262–265),
applied through `ButtonBuilder.action`'s classification. -/
def applyListDefault (lcfg : ListConfig) (cfg : ButtonConfig) : ButtonConfig :=
  if cfg.action.isNone && !cfg.inlineHandler && cfg.submenu.isNone then
    match lcfg.action with
    | some h => setAction cfg h
    | none => cfg
  else cfg

/-- The callback data of a list-item button (engine.ts lines 270–278). -/
def listItemCbData (menuId : String) (bcfg : ButtonConfig)
    (currentPayload : Option Payload) (btnId : String) : String :=
  match bcfg.action with
  | some (.ref aid) =>
    let p := if bcfg.payload.isSome then bcfg.payload else currentPayload
    "a:" ++ aid ++ "/" ++ menuId ++ ":" ++ payloadToStr p bcfg.buttonId
  | _ => "_:" ++ menuId ++ ":" ++ btnId

/-- The per-item loop of the `case "list"` arm (engine.ts lines 255–281):
column wrapping, default-action fallback, then one cell per item. -/
def listLoop (menuId : String) (ctx : Ctx) (currentPayload : Option Payload)
    (lcfg : ListConfig) (f : JVal → ButtonConfig) :
    List JVal → Nat → Keyboard → Keyboard × Nat
  | [], colCount, kb => (kb, colCount)
  | item :: rest, colCount, kb =>
    let kbCc : Keyboard × Nat :=
      if decide (colCount > 0) && decide (colCount ≥ lcfg.columns) then (kb.nextRow, 0)
      else (kb, colCount)
    let bcfg := applyListDefault lcfg (f item)
    let label := resolveLabel bcfg.label ctx
    let btnId := bcfg.buttonId.getD label
    let kb2 := kbCc.1.addCell (.push label (listItemCbData menuId bcfg currentPayload btnId))
    listLoop menuId ctx currentPayload lcfg f rest (kbCc.2 + 1) kb2

/-- Total number of pages, as computed by `Math.ceil(items.length /
itemsPerPage)` (engine.ts line 245), on the `itemsPerPage > 0` domain. -/
def totalPagesOf (numItems itemsPerPage : Nat) : Nat :=
  (numItems + itemsPerPage - 1) / itemsPerPage

/-- The pagination controls row (engine.ts lines 283–293), emitted only
when `totalPages > 1`. -/
def pagRow (menuId : String) (listIdx currentPage totalPages : Nat) : List Cell :=
  (if currentPage > 0 then
    [Cell.push "⬅️" ("p:" ++ menuId ++ ":" ++ natStr listIdx ++ ":" ++ natStr (currentPage - 1))]
  else [])
  ++ [Cell.push (natStr (currentPage + 1) ++ "/" ++ natStr totalPages)
        ("_:" ++ menuId ++ ":page-info")]
  ++ (if currentPage < totalPages - 1 then
    [Cell.push "➡️" ("p:" ++ menuId ++ ":" ++ natStr listIdx ++ ":" ++ natStr (currentPage + 1))]
  else [])

/-- Append a list of cells to the open row. -/
def Keyboard.addCells (kb : Keyboard) (cs : List Cell) : Keyboard :=
  { kb with current := kb.current ++ cs }

/-- The `case "list"` arm of `buildKeyboard` (engine.ts lines 238–299). -/
def stepList (menuId : String) (ctx : Ctx) (chatId : Int) (pageSt : PageState)
    (currentPayload : Option Payload) (st : BuildState) (lcfg : ListConfig) :
    BuildState :=
  match lcfg.renderFn with
  | none => st
  | some f =>
    let pk := pageKey chatId menuId st.listIdx
    let currentPage := (lookupA pageSt pk).getD 0
    let totalPages := totalPagesOf lcfg.items.length lcfg.itemsPerPage
    let startIdx := currentPage * lcfg.itemsPerPage
    let pageItems := (lcfg.items.drop startIdx).take lcfg.itemsPerPage
    let kb := if st.rowCount > 0 then st.kb.nextRow else st.kb
    let kb := (listLoop menuId ctx currentPayload lcfg f pageItems 0 kb).1
    let kb :=
      if totalPages > 1 then
        (kb.nextRow).addCells (pagRow menuId st.listIdx currentPage totalPages)
      else kb
    { st with kb := kb.nextRow, rowCount := 0, listIdx := st.listIdx + 1 }

/-- One element of the snapshot loop (engine.ts lines 170–309). -/
def buildStep (menuId : String) (maxPerRow : Nat) (ctx : Ctx) (chatId : Int)
    (pageSt : PageState) (currentPayload : Option Payload)
    (st : BuildState) : LayoutElement → BuildState
  | .text content pm => { st with text := content, parseMode := pm }
  | .image url => { st with imageUrl := some url }
  | .button cfg => stepButton menuId maxPerRow ctx currentPayload st cfg
  | .list lcfg => stepList menuId ctx chatId pageSt currentPayload st lcfg
  | .refreshBtn label =>
    { st with kb := (st.kb.nextRow).addCell (.push label ("r:" ++ menuId)), rowCount := 0 }

/-- The snapshot loop. -/
def buildElems (menuId : String) (maxPerRow : Nat) (ctx : Ctx) (chatId : Int)
    (pageSt : PageState) (currentPayload : Option Payload)
    (st : BuildState) : List LayoutElement → BuildState
  | [] => st
  | el :: rest =>
    buildElems menuId maxPerRow ctx chatId pageSt currentPayload
      (buildStep menuId maxPerRow ctx chatId pageSt currentPayload st el) rest

/-- The pre-scan (engine.ts lines 155–165): find the first default-flagged
button; when its action is a synchronous tab handler (not an `ActionRef`),
run it, appending its layout writes before the snapshot is taken. -/
def findDefaultBtn : List LayoutElement → Option ButtonConfig
  | [] => none
  | .button cfg :: rest => if cfg.isDefault then some cfg else findDefaultBtn rest
  | _ :: rest => findDefaultBtn rest

/-- Elements after the pre-scan ran the default tab's handler (if any). -/
def prescan (els : List LayoutElement) : List LayoutElement :=
  match findDefaultBtn els with
  | some cfg =>
    match cfg.action with
    | some (.sync adds) => els ++ adds.map simpleToElement
    | _ => els
  | none => els

/-- Result of `buildKeyboard` (engine.ts line 144/318). -/
structure BuildResult where
  text : String
  keyboard : Keyboard
  parseMode : Option String
  imageUrl : Option String
deriving DecidableEq

/-- `buildKeyboard` (engine.ts lines 136–319), for a configuration without
a translator: the pre-scan, the snapshot loop, the appended Back control
for a node with a parent, and the `"Menu"` fallback text.  The module-level
`pageState` map is passed explicitly. -/
def buildKeyboard (menuId : String) (layout : Layout) (ctx : Ctx) (chatId : Int)
    (pageSt : PageState) (backToMenuId : Option String)
    (currentPayload : Option Payload := none) : BuildResult :=
  let snapshot := prescan layout.elements
  let st := buildElems menuId layout.maxPerRow ctx chatId pageSt currentPayload {} snapshot
  let kb :=
    match backToMenuId with
    | some b => (st.kb.nextRow).addCell (.push "◀️ Back" ("n:" ++ b))
    | none => st.kb
  { text := if st.text = "" then "Menu" else st.text
    keyboard := kb
    parseMode := st.parseMode
    imageUrl := st.imageUrl }

/-! ### Registry discovery and `renderMenu` -/

/-- The program's menus: each `MenuRef` in scope, keyed by its id. -/
abbrev MenuUniverse := List (String × (Ctx → Layout))

/-- A registry entry (`CollectedMenu`, engine.ts lines 56–60): the menu's
builder and the first-discovery parent used for Back navigation. -/
structure CollectedMenu where
  builder : Ctx → Layout
  parent : Option String := none

/-- The engine's `menus` map, in insertion order. -/
abbrev MenuRegistry := List (String × CollectedMenu)

/-- Submenu references of a layout's button elements, in order
(the `cfg.submenu` recursion sites of engine.ts lines 102–104). -/
def submenusOf : List LayoutElement → List String
  | [] => []
  | .button cfg :: rest =>
    match cfg.submenu with
    | some sm => sm :: submenusOf rest
    | none => submenusOf rest
  | _ :: rest => submenusOf rest

/-- `collectMenuTree` (engine.ts lines 67–132), written as the equivalent
explicit depth-first traversal over a worklist of `(menuId, parentId)`
pairs: an already-registered id returns immediately (so the first
discovered path wins), otherwise the menu is registered with the given
parent and its submenus are visited depth-first, left to right, exactly as
the source's recursion does.  Only menu registration is modelled; the
action registration walking the same buttons touches no menu entry.  The
builder runs on the synthetic `mockCtx` (engine.ts lines 76–79).  `fuel`
bounds the iteration count. -/
def collectGo (univ : MenuUniverse) :
    Nat → List (String × Option String) → MenuRegistry → MenuRegistry
  | 0, _, acc => acc
  | _ + 1, [], acc => acc
  | fuel + 1, (menuId, parentId) :: work, acc =>
    if (lookupA acc menuId).isSome then collectGo univ fuel work acc
    else
      let builder := (lookupA univ menuId).getD (fun _ => {})
      let children := submenusOf (builder mockCtx).elements
      let acc2 := acc ++ [(menuId, { builder := builder, parent := parentId })]
      collectGo univ fuel (children.map (fun c => (c, some menuId)) ++ work) acc2

/-- Discovery from the root (engine.ts line 348). -/
def collectMenuTree (univ : MenuUniverse) (fuel : Nat) (rootId : String) :
    MenuRegistry :=
  collectGo univ fuel [(rootId, none)] []

/-- `renderMenu` (engine.ts lines 666–706): an unregistered id falls back
to rendering the root (lines 674–681); a registered menu gets a fresh
layout from its builder and `buildKeyboard` with its first-discovery
parent as the Back target.  The messaging tail (`internalRenderLayout`) is
outside the model; the outcome records which menu was rendered with what
content.  `fuel` bounds the fallback recursion (`none` models the
divergence that would occur if even the root were unregistered). -/
def renderMenu (menus : MenuRegistry) (rootId : String) :
    Nat → String → Ctx → Int → PageState → Option (String × BuildResult)
  | 0, _, _, _, _ => none
  | fuel + 1, menuId, ctx, chatId, pageSt =>
    match lookupA menus menuId with
    | none => renderMenu menus rootId fuel rootId ctx chatId pageSt
    | some m =>
      some (menuId, buildKeyboard menuId (m.builder ctx) ctx chatId pageSt m.parent)

/-! ### The Conversation Resumption Manager: payload cascade and `ask` -/

/-- A regex trigger, modelled semantically by its match function: the match
array (`m[0], m[1], …`) for a given text, `none` when there is no match. -/
abbrev RegexpModel := String → Option (List String)

/-- `parseInt(val, 10) || val` (engine.ts lines 419 and 427): a falsy parse
result (`NaN`, or `0`) falls back to the raw string. -/
def parseIntOrStr (s : String) : JVal :=
  match jsParseInt s with
  | some n => if n = 0 then JVal.str s else JVal.num n
  | none => JVal.str s

/-- The parts of the triggering update that the payload cascade reads. -/
structure ConvUpdate where
  sessionPayload : Option Payload := none
  ctxMatch : Option (List String) := none
  messageText : Option String := none
  callbackData : Option String := none

/-- Cascade stage C1: `ctx.match` capture groups (engine.ts lines 417–420). -/
def stageMatch (m : Option (List String)) : Option Payload :=
  match m with
  | some arr =>
    if arr.length > 1 then some [("id", parseIntOrStr (arr.getD 1 ""))] else none
  | none => none

/-- Cascade stage C2: re-matching the message text against the action's
regex triggers (engine.ts lines 422–431); a match with no capture group
lets the loop continue. -/
def stageRegexpsGo : List RegexpModel → String → Option Payload
  | [], _ => none
  | re :: rest, t =>
    match re t with
    | some m =>
      if m.length > 1 then some [("id", parseIntOrStr (m.getD 1 ""))]
      else stageRegexpsGo rest t
    | none => stageRegexpsGo rest t

/-- Stage C2 entry: requires a text message. -/
def stageRegexps (triggers : List RegexpModel) (text : Option String) : Option Payload :=
  match text with
  | none => none
  | some t => stageRegexpsGo triggers t

/-- Cascade stage D: decode the originating callback token (engine.ts
lines 433–448). -/
def stageCb (cb : Option String) : Option Payload :=
  match cb with
  | some data => decodeActionPayloadD data
  | none => none

/-- The payload cascade of `convBuilder` (engine.ts lines 400–448): the
persisted conversation-session payload wins, then the staged session
payload, then `ctx.match`, then trigger re-matching, then the callback
token. -/
def resolvePayload (convPayload : Option Payload) (triggers : List RegexpModel)
    (upd : ConvUpdate) : Option Payload :=
  match convPayload with
  | some p => some p
  | none =>
    match upd.sessionPayload with
    | some p => some p
    | none =>
      match stageMatch upd.ctxMatch with
      | some p => some p
      | none =>
        match stageRegexps triggers upd.messageText with
        | some p => some p
        | none => stageCb upd.callbackData

/-- Persistence of the resolved payload (engine.ts lines 450–460): written
only when the conversation session holds none yet. -/
def persistPayload (convPayload resolved : Option Payload) : Option Payload :=
  match resolved with
  | none => convPayload
  | some p =>
    match convPayload with
    | none => some p
    | some q => some q

/-- The payload value handed to the handler: `payload || {}` (engine.ts
line 500; every payload the cascade can produce is an object and therefore
truthy, so only an unresolved payload falls back to `{}`). -/
def observedPayload (resolved : Option Payload) : Payload := resolved.getD []

/-- One replay of `convBuilder`'s payload resolution and persistence: what
the handler observes, and the conversation session afterwards. -/
def convStep (convPayload : Option Payload) (triggers : List RegexpModel)
    (upd : ConvUpdate) : Payload × Option Payload :=
  let resolved := resolvePayload convPayload triggers upd
  (observedPayload resolved, persistPayload convPayload resolved)

/-- An incoming update during a conversation wait. -/
inductive Upd where
  | textMsg (s : String)
  | photoMsg (fileIds : List String)
  | cbData (data : String)
deriving DecidableEq

/-- The `ask` field type (conversation.ts: `opts.type ?? "text"`). -/
inductive AskType where
  | text
  | number
  | photo
deriving DecidableEq

/-- `ask` options for the input branch.  The single JavaScript `validate`
predicate is split here by the coerced value type it receives. -/
structure AskOpts where
  type : AskType := .text
  validateNum : Option (Int → Bool) := none
  validateStr : Option (String → Bool) := none
  errorMessage : Option String := none

/-- A resolved `ask` value: the coerced number, the raw text, or the
photo's stored file id. -/
inductive AskValue where
  | numV (n : Int)
  | strV (s : String)
  | photoV (fileId : String)
deriving DecidableEq

/-- Outcome of one `ask` call driven by a finite update list: resolution,
cancellation, or still suspended on the wait with the given prompt text
shown.  `prompts` lists every prompt text rendered (`editOrReply`), in
order. -/
inductive AskOutcome where
  | resolved (v : AskValue) (prompts : List String)
  | cancelled (prompts : List String)
  | waiting (currentPrompt : String) (prompts : List String)
deriving DecidableEq

/-- Untranslated defaults of the internal strings (conversation.ts; a
configuration without a translator). -/
def cancelLabel : String := "🚫 Cancel"

/-- The re-prompt text (conversation.ts `${err}\n\n${translatedQuestion}`). -/
def rePrompt (err question : String) : String := err ++ "\n\n" ++ question

/-- The error text chosen for a failed input: `opts.errorMessage` when set,
else the type-specific default. -/
def askErr (opts : AskOpts) (fallback : String) : String :=
  opts.errorMessage.getD fallback

/-- The wait-and-validate loop of `ask`'s input branch (conversation.ts
lines 233–313), after the current prompt has been rendered.  Updates not
matched by the branch's `waitFor` filter are skipped by the wait.  A
`cancel_conversation` callback answers, navigates (see `cancelNavTarget`)
and resolves `undefined`. -/
def askWait (question : String) (opts : AskOpts) :
    List Upd → String → List String → AskOutcome
  | [], prompt, prompts => .waiting prompt prompts
  | .cbData d :: rest, _prompt, prompts =>
    if d = "cancel_conversation" then .cancelled prompts
    else
      -- a foreign callback has no `message.text` / `message.photo`
      let err := askErr opts
        (if opts.type = .photo then "Please send a photo." else "Please send a text message.")
      let next := rePrompt err question
      askWait question opts rest next (prompts ++ [next])
  | .photoMsg fileIds :: rest, prompt, prompts =>
    if opts.type = .photo then
      match fileIds.getLast? with
      | some fid =>
        match opts.validateStr with
        | some v =>
          if v fid then .resolved (.photoV fid) prompts
          else
            let next := rePrompt (askErr opts "Invalid input. Try again.") question
            askWait question opts rest next (prompts ++ [next])
        | none => .resolved (.photoV fid) prompts
      | none => .waiting prompt prompts
    else
      -- filter ["message:text", "callback_query:data"]: skipped by the wait
      askWait question opts rest prompt prompts
  | .textMsg raw :: rest, prompt, prompts =>
    if opts.type = .photo then
      -- filter ["message:photo", "callback_query:data"]: skipped by the wait
      askWait question opts rest prompt prompts
    else if opts.type = .number then
      match jsStrToNum raw with
      | none =>
        let next := rePrompt (askErr opts "Please send a valid number.") question
        askWait question opts rest next (prompts ++ [next])
      | some n =>
        match opts.validateNum with
        | some v =>
          if v n then .resolved (.numV n) prompts
          else
            let next := rePrompt (askErr opts "Invalid input. Try again.") question
            askWait question opts rest next (prompts ++ [next])
        | none => .resolved (.numV n) prompts
    else
      match opts.validateStr with
      | some v =>
        if v raw then .resolved (.strV raw) prompts
        else
          let next := rePrompt (askErr opts "Invalid input. Try again.") question
          askWait question opts rest next (prompts ++ [next])
      | none => .resolved (.strV raw) prompts

/-- `ask`'s input branch (conversation.ts lines 221–234): render the
question (with the automatic Cancel control) and enter the wait loop. -/
def askInput (question : String) (opts : AskOpts) (upds : List Upd) : AskOutcome :=
  askWait question opts upds question [question]

/-- The choice branch of `ask` (conversation.ts lines 181–219): wait for an
`ask:`-prefixed callback; other updates are rejected by the `otherwise`
handler without consuming the wait; `ask:__cancel__` cancels. -/
def askChoice (question : String) : List Upd → AskOutcome
  | [] => .waiting question [question]
  | .cbData d :: rest =>
    if sLeadsWith "ask:" d then
      let v : String := ⟨d.data.drop 4⟩
      if v = "__cancel__" then .cancelled [question]
      else .resolved (.strV v) [question]
    else askChoice question rest
  | _ :: rest => askChoice question rest

/-- The render target of `convBuilder`'s `navigate` closure (engine.ts
lines 462–463): the argument menu's id, or the root when called with no
argument — `ask`'s cancellation path calls it with no argument
(`navigateTo()`, conversation.ts lines 241/273), so the stored
`originMenuId` is never consulted. -/
def cancelNavTarget (rootId : String) (menuArg : Option String) : String :=
  match menuArg with
  | some m => m
  | none => rootId

/-! ### Token round-trip lemmas -/

theorem isDigit_ne_colon {c : Char} (h : c.isDigit) : c ≠ ':' := by
  intro h'; subst h'; revert h; decide

theorem isDigit_ne_slash {c : Char} (h : c.isDigit) : c ≠ '/' := by
  intro h'; subst h'; revert h; decide

theorem isDigit_ne_lbrace {c : Char} (h : c.isDigit) : c ≠ '{' := by
  intro h'; subst h'; revert h; decide

theorem slash_not_in_natStr (n : Nat) : '/' ∉ (natStr n).data := by
  intro h
  exact isDigit_ne_slash (natStr_digits n _ h) rfl

theorem colon_not_in_natStr (n : Nat) : ':' ∉ (natStr n).data := by
  intro h
  exact isDigit_ne_colon (natStr_digits n _ h) rfl

theorem slash_not_in_intStr (n : Int) : '/' ∉ (intStr n).data := by
  intro h
  rcases intStr_mem n _ h with h1 | h1
  · cases h1
  · exact isDigit_ne_slash h1 rfl

theorem str_ne_empty_of_data {s : String} (h : s.data ≠ []) : s ≠ "" := by
  intro he
  exact h (by rw [he])

theorem splitChar_ne_nil (sep : Char) (cs : List Char) : splitChar sep cs ≠ [] := by
  cases cs with
  | nil => simp [splitChar]
  | cons c tl =>
    simp only [splitChar]
    by_cases hc : c = sep
    · simp [hc]
    · simp only [hc, if_false, ite_false]
      cases splitChar sep tl with
      | nil => simp
      | cons x xs => simp

theorem joinChar_splitChar (sep : Char) (cs : List Char) :
    joinChar sep (splitChar sep cs) = cs := by
  induction cs with
  | nil => rfl
  | cons c tl ih =>
    simp only [splitChar]
    by_cases hc : c = sep
    · subst hc
      simp only [if_true, ite_true]
      cases hs : splitChar c tl with
      | nil => exact absurd hs (splitChar_ne_nil c tl)
      | cons x xs =>
        rw [← hs]
        show (joinChar c ([] :: splitChar c tl)) = c :: tl
        rw [hs]
        show [] ++ c :: joinChar c (x :: xs) = c :: tl
        rw [← hs, ih]
        rfl
    · simp only [hc, if_false, ite_false]
      cases hs : splitChar sep tl with
      | nil => exact absurd hs (splitChar_ne_nil sep tl)
      | cons x xs =>
        rw [hs] at ih
        cases xs with
        | nil =>
          show c :: x = c :: tl
          rw [show joinChar sep [x] = x from rfl] at ih
          rw [ih]
        | cons y ys =>
          show c :: x ++ sep :: joinChar sep (y :: ys) = c :: tl
          rw [show joinChar sep (x :: y :: ys) = x ++ sep :: joinChar sep (y :: ys) from rfl] at ih
          simp only [List.cons_append, ih]

/-- Characters available for a payload string in the JSON path of the
codec: no quote (escaping is outside the model) and no slash (the token is
later split on `/`). -/
def tokenSafeStr (s : String) : Prop := '"' ∉ s.data ∧ '/' ∉ s.data

/-- Entry condition for the structured payload path. -/
def tokenSafeEntry (kv : String × JVal) : Prop :=
  tokenSafeStr kv.1 ∧ (match kv.2 with | .str s => tokenSafeStr s | .num _ => True)

theorem tokenSafeEntry_good {kv : String × JVal} (h : tokenSafeEntry kv) :
    goodEntry kv := by
  obtain ⟨⟨hk, _⟩, hv⟩ := h
  refine ⟨hk, ?_⟩
  cases hkv : kv.2 with
  | num n => exact trivial
  | str s =>
    rw [hkv] at hv
    exact hv.1

theorem mem_entryJson {c : Char} {kv : String × JVal}
    (h : c ∈ (entryJson kv).data) :
    c = '"' ∨ c = ':' ∨ c ∈ kv.1.data ∨ c ∈ (jvalJson kv.2).data := by
  simp only [entryJson, jsonQuote, String.data_append, List.mem_append, List.mem_cons,
    List.mem_singleton, List.not_mem_nil] at h
  tauto

theorem mem_jvalJson_str {c : Char} {t : String} (h : c ∈ (jvalJson (.str t)).data) :
    c = '"' ∨ c ∈ t.data := by
  simp only [jvalJson, jsonQuote, String.data_append, List.mem_append, List.mem_cons,
    List.mem_singleton, List.not_mem_nil] at h
  tauto

theorem slash_not_in_jvalJson {v : JVal}
    (hv : match v with | .str s => tokenSafeStr s | .num _ => True) :
    '/' ∉ (jvalJson v).data := by
  intro hmem
  cases v with
  | num m => exact slash_not_in_intStr m hmem
  | str t =>
    rcases mem_jvalJson_str hmem with h1 | h1
    · exact absurd h1 (by decide)
    · exact hv.2 h1

theorem slash_not_in_entryJson {kv : String × JVal} (hkv : tokenSafeEntry kv) :
    '/' ∉ (entryJson kv).data := by
  intro hmem
  rcases mem_entryJson hmem with h1 | h1 | h1 | h1
  · exact absurd h1 (by decide)
  · exact absurd h1 (by decide)
  · exact hkv.1.2 h1
  · exact slash_not_in_jvalJson hkv.2 h1

theorem slash_not_in_entriesJson (ps : Payload)
    (hps : ∀ kv ∈ ps, tokenSafeEntry kv) : '/' ∉ (entriesJson ps).data := by
  induction ps with
  | nil => simp [entriesJson]
  | cons kv rest ih =>
    have hkv := hps kv (List.mem_cons_self _ _)
    cases rest with
    | nil =>
      simpa [entriesJson] using slash_not_in_entryJson hkv
    | cons kv2 rest2 =>
      have hrw : entriesJson (kv :: kv2 :: rest2)
          = entryJson kv ++ "," ++ entriesJson (kv2 :: rest2) := rfl
      rw [hrw]
      intro hmem
      simp only [String.data_append, List.mem_append, List.mem_cons, List.mem_singleton,
        List.not_mem_nil] at hmem
      have hnot1 := slash_not_in_entryJson hkv
      have hnot2 := ih (fun e he => hps e (List.mem_cons_of_mem _ he))
      have hcomma : ¬ (('/' : Char) = ',') := by decide
      tauto

theorem slash_not_in_stringifyFlat (ps : Payload)
    (hps : ∀ kv ∈ ps, tokenSafeEntry kv) : '/' ∉ (stringifyFlat ps).data := by
  intro hmem
  simp only [stringifyFlat, String.data_append, List.mem_append, List.mem_cons,
    List.mem_singleton, List.not_mem_nil] at hmem
  have hnot := slash_not_in_entriesJson ps hps
  have h1 : ¬ (('/' : Char) = '{') := by decide
  have h2 : ¬ (('/' : Char) = '}') := by decide
  tauto

theorem encodeActionToken_data (aid origin pStr : String) :
    (encodeActionToken aid origin pStr).data
      = ('a' :: ':' :: aid.data) ++ '/' :: (origin.data ++ ':' :: pStr.data) := by
  simp [encodeActionToken, String.data_append]

theorem slash_not_in_left {aid : String} (haid : '/' ∉ aid.data) :
    '/' ∉ 'a' :: ':' :: aid.data := by
  intro h
  rcases List.mem_cons.mp h with h1 | h1
  · cases h1
  · rcases List.mem_cons.mp h1 with h2 | h2
    · cases h2
    · exact haid h2

theorem slash_not_in_right {origin pStr : String}
    (hor : '/' ∉ origin.data) (hp : '/' ∉ pStr.data) :
    '/' ∉ origin.data ++ ':' :: pStr.data := by
  intro h
  rcases List.mem_append.mp h with h1 | h1
  · exact hor h1
  · rcases List.mem_cons.mp h1 with h2 | h2
    · cases h2
    · exact hp h2

/-- Splitting an encoded action token recovers its two parts. -/
theorem splitChar_encodeActionToken (aid origin pStr : String)
    (haid : '/' ∉ aid.data) (hor : '/' ∉ origin.data) (hp : '/' ∉ pStr.data) :
    splitChar '/' (encodeActionToken aid origin pStr).data
      = [('a' :: ':' :: aid.data), origin.data ++ ':' :: pStr.data] := by
  rw [encodeActionToken_data,
    splitChar_append (slash_not_in_left haid),
    splitChar_no_sep (slash_not_in_right hor hp)]

/-- Stage D on an encoded action token reduces to the payload-segment
decode. -/
theorem decodeActionPayloadD_encode (aid origin pStr : String)
    (haid : '/' ∉ aid.data) (hor : '/' ∉ origin.data) (hoc : ':' ∉ origin.data)
    (hp : '/' ∉ pStr.data) :
    decodeActionPayloadD (encodeActionToken aid origin pStr)
      = decodePayloadStr pStr := by
  unfold decodeActionPayloadD
  rw [show sLeadsWith "a:" (encodeActionToken aid origin pStr) = true from rfl]
  rw [splitChar_encodeActionToken aid origin pStr haid hor hp]
  simp only [if_true, ite_true]
  rw [breakAtChar_append hoc]

/-- The pre-check middleware recovers action id and origin from an encoded
action token. -/
theorem decodeActionTarget_encode (aid origin pStr : String)
    (haid : '/' ∉ aid.data) (hor : '/' ∉ origin.data) (hoc : ':' ∉ origin.data)
    (hp : '/' ∉ pStr.data) (hne : origin ≠ "") (hnu : origin ≠ "undefined") :
    decodeActionTarget (encodeActionToken aid origin pStr) = (aid, some origin) := by
  unfold decodeActionTarget
  rw [splitChar_encodeActionToken aid origin pStr haid hor hp]
  simp only [breakAtChar_append hoc]
  have : (if (origin = "" ∨ origin = "undefined") then none else some origin)
      = some origin := by
    simp [hne, hnu]
  simp only [List.drop]
  exact congrArg _ this

theorem intStr_data_ne_nil (n : Int) : (intStr n).data ≠ [] := by
  by_cases hneg : n < 0
  · have habs : n.natAbs ≠ 0 := by omega
    have hdata : (intStr n).data = '-' :: natChars n.natAbs := by
      simp [intStr, hneg, natStr, habs, String.data_append]
    rw [hdata]
    simp
  · have hdata : (intStr n).data = (natStr n.natAbs).data := by simp [intStr, hneg]
    rw [hdata]
    exact natStr_data_ne_nil _

theorem sLeadsWith_lbrace_false {s : String}
    (h : ∀ c, s.data.head? = some c → c ≠ '{') : sLeadsWith "\x7b" s = false := by
  unfold sLeadsWith
  cases hd : s.data with
  | nil => rfl
  | cons c tl =>
    have hc : c ≠ '{' := h c (by rw [hd]; rfl)
    show leadsWithC ['{'] (c :: tl) = false
    simp only [leadsWithC, Bool.and_eq_false_iff]
    left
    simpa using fun hh => hc hh.symm

theorem head_is_mem {α : Type} {xs : List α} {c : α} (h : xs.head? = some c) :
    c ∈ xs := by
  cases xs with
  | nil => cases h
  | cons a tl =>
    simp only [List.head?_cons, Option.some.injEq] at h
    subst h
    exact List.mem_cons_self _ _

theorem decodePayloadStr_num (n : Int) :
    decodePayloadStr (intStr n) = some [("id", JVal.num n)] := by
  unfold decodePayloadStr
  have hne : intStr n ≠ "" := str_ne_empty_of_data (intStr_data_ne_nil n)
  have hlb : sLeadsWith "\x7b" (intStr n) = false := by
    apply sLeadsWith_lbrace_false
    intro c hc
    have hmem : c ∈ (intStr n).data := head_is_mem hc
    rcases intStr_mem n c hmem with h1 | h1
    · subst h1; decide
    · exact isDigit_ne_lbrace h1
  simp only [hne, if_false, ite_false, hlb, Bool.false_eq_true, jsStrToNum_intStr]

theorem decodePayloadStr_str (s : String) (hne : s ≠ "")
    (hlb : sLeadsWith "\x7b" s = false) (hbad : ∃ c ∈ s.data, ¬ jsNumericish c) :
    decodePayloadStr s = some [("id", JVal.str s)] := by
  unfold decodePayloadStr
  obtain ⟨c, hc, hcbad⟩ := hbad
  have hnum : jsStrToNum s = none := jsStrToNumC_none_of_bad hc hcbad
  simp only [hne, if_false, ite_false, hlb, Bool.false_eq_true, hnum]

theorem payloadToStr_structured (ps : Payload) (h : isSingleIdKey ps = false)
    (bid : Option String) : payloadToStr (some ps) bid = stringifyFlat ps := by
  cases ps with
  | nil => rfl
  | cons kv rest =>
    cases rest with
    | nil =>
      obtain ⟨k, v⟩ := kv
      have hk : (k = "id") = False := by
        simpa [isSingleIdKey] using h
      simp [payloadToStr, hk]
    | cons kv2 rest2 => rfl

theorem decodePayloadStr_json (ps : Payload)
    (hsafe : ∀ kv ∈ ps, tokenSafeEntry kv) :
    decodePayloadStr (stringifyFlat ps) = some ps := by
  unfold decodePayloadStr
  have hdata : (stringifyFlat ps).data = '{' :: ((entriesJson ps).data ++ ['}']) := by
    simp [stringifyFlat, String.data_append]
  have hne : stringifyFlat ps ≠ "" := str_ne_empty_of_data (by rw [hdata]; simp)
  have hlb : sLeadsWith "\x7b" (stringifyFlat ps) = true := by
    unfold sLeadsWith
    rw [hdata]
    rfl
  simp only [hne, if_false, ite_false, hlb, if_true, ite_true]
  exact jsonParseFlat_stringifyFlat ps (fun kv hkv => tokenSafeEntry_good (hsafe kv hkv))

theorem decodePageToken_encode (m : String) (li pg : Nat) (hm : ':' ∉ m.data) :
    decodePageToken ("p:" ++ m ++ ":" ++ natStr li ++ ":" ++ natStr pg)
      = some (m, some (Int.ofNat li), some (Int.ofNat pg)) := by
  unfold decodePageToken
  have hdata : ("p:" ++ m ++ ":" ++ natStr li ++ ":" ++ natStr pg).data
      = ['p'] ++ ':' :: (m.data ++ ':' :: ((natStr li).data ++ ':' :: (natStr pg).data)) := by
    simp [String.data_append]
  rw [hdata, splitChar_append (by decide), splitChar_append hm,
    splitChar_append (colon_not_in_natStr li), splitChar_no_sep (colon_not_in_natStr pg)]
  have h1 : jsParseIntC (natStr li).data = some (Int.ofNat li) := jsParseInt_natStr li
  have h2 : jsParseIntC (natStr pg).data = some (Int.ofNat pg) := jsParseInt_natStr pg
  rw [show (([['p'], m.data, (natStr li).data, (natStr pg).data] : List (List Char)))
      = ['p'] :: m.data :: (natStr li).data :: (natStr pg).data :: [] from rfl]
  simp only [h1, h2]

theorem decodeTabToken_encode (m b : String) (hm : ':' ∉ m.data) :
    decodeTabToken ("t:" ++ m ++ ":" ++ b) = some (m, b) := by
  unfold decodeTabToken
  have hdata : ("t:" ++ m ++ ":" ++ b).data
      = ['t'] ++ ':' :: (m.data ++ ':' :: b.data) := by
    simp [String.data_append]
  rw [hdata, splitChar_append (by decide), splitChar_append hm]
  show some (m, (⟨joinChar ':' (splitChar ':' b.data)⟩ : String)) = some (m, b)
  rw [joinChar_splitChar]

/-- C1 counterexample: the Render Pipeline encodes the single-key payload
`{id: "5"}` (a *string* value) as the bare scalar `5`, and the decoder's
raw-id optimization turns it back into the *number* `5`: the decoded
payload differs from the encoded one. -/
theorem C1_counterexample :
    (buildKeyboard "m1"
        { elements := [.button { label := .lit "Go",
                                 action := some (.ref "actX"),
                                 payload := some [("id", JVal.str "5")] }] }
        {} 1 [] none).keyboard.cells
      = [.push "Go" (encodeActionToken "actX" "m1" "5")]
    ∧ decodeActionPayloadD (encodeActionToken "actX" "m1" "5")
      = some [("id", JVal.num 5)]
    ∧ [("id", JVal.num 5)] ≠ [("id", JVal.str "5")] := by
  refine ⟨rfl, rfl, by decide⟩

/-- C1 (amended): decoding inverts encoding for every token shape the
Render Pipeline produces, except that a single-key `{id: v}` payload whose
string value looks numeric decodes to the number (the counterexample);
stated for separator-free ids and escape-free payload strings.  The
conjuncts: (1) navigation tokens; (2) action-token routing and
target/origin; (3) `{id: n}` with a number round-trips; (4) `{id: s}` with
a non-numeric, non-empty, non-`{`-led string round-trips; (5) any other
(multi-key or non-`id`) object round-trips through the JSON path; (6) an
absent payload on a button without an explicit id decodes back to an absent
payload; (7) pagination tokens; (8) tab tokens (whose button-id segment
round-trips even with colons, via the `join(":")` in the decoder). -/
theorem C1_roundtrip_amended :
    (∀ m : String, routeCb ("n:" ++ m) = .nav m
      ∧ decodeNavTarget ("n:" ++ m) = m)
    ∧ (∀ aid origin pStr : String, '/' ∉ aid.data → '/' ∉ origin.data →
        ':' ∉ origin.data → '/' ∉ pStr.data → origin ≠ "" → origin ≠ "undefined" →
        routeCb (encodeActionToken aid origin pStr) = .act
        ∧ decodeActionTarget (encodeActionToken aid origin pStr) = (aid, some origin))
    ∧ (∀ (aid origin : String) (bid : Option String) (n : Int),
        '/' ∉ aid.data → '/' ∉ origin.data → ':' ∉ origin.data →
        decodeActionPayloadD
            (encodeActionToken aid origin (payloadToStr (some [("id", JVal.num n)]) bid))
          = some [("id", JVal.num n)])
    ∧ (∀ (aid origin : String) (bid : Option String) (s : String),
        '/' ∉ aid.data → '/' ∉ origin.data → ':' ∉ origin.data →
        s ≠ "" → sLeadsWith "\x7b" s = false → '/' ∉ s.data →
        (∃ c ∈ s.data, ¬ jsNumericish c) →
        decodeActionPayloadD
            (encodeActionToken aid origin (payloadToStr (some [("id", JVal.str s)]) bid))
          = some [("id", JVal.str s)])
    ∧ (∀ (aid origin : String) (bid : Option String) (ps : Payload),
        '/' ∉ aid.data → '/' ∉ origin.data → ':' ∉ origin.data →
        isSingleIdKey ps = false → (∀ kv ∈ ps, tokenSafeEntry kv) →
        decodeActionPayloadD
            (encodeActionToken aid origin (payloadToStr (some ps) bid))
          = some ps)
    ∧ (∀ aid origin : String, '/' ∉ aid.data → '/' ∉ origin.data → ':' ∉ origin.data →
        decodeActionPayloadD (encodeActionToken aid origin (payloadToStr none none))
          = none)
    ∧ (∀ (m : String) (li pg : Nat), ':' ∉ m.data →
        decodePageToken ("p:" ++ m ++ ":" ++ natStr li ++ ":" ++ natStr pg)
          = some (m, some (Int.ofNat li), some (Int.ofNat pg)))
    ∧ (∀ m b : String, ':' ∉ m.data →
        decodeTabToken ("t:" ++ m ++ ":" ++ b) = some (m, b)) := by
  refine ⟨?_, ?_, ?_, ?_, ?_, ?_, ?_, ?_⟩
  · intro m
    exact ⟨rfl, rfl⟩
  · intro aid origin pStr haid hor hoc hp hne hnu
    refine ⟨rfl, decodeActionTarget_encode aid origin pStr haid hor hoc hp hne hnu⟩
  · intro aid origin bid n haid hor hoc
    rw [show payloadToStr (some [("id", JVal.num n)]) bid = intStr n from rfl]
    rw [decodeActionPayloadD_encode aid origin (intStr n) haid hor hoc
      (slash_not_in_intStr n)]
    exact decodePayloadStr_num n
  · intro aid origin bid s haid hor hoc hsne hslb hsl hbad
    rw [show payloadToStr (some [("id", JVal.str s)]) bid = s from rfl]
    rw [decodeActionPayloadD_encode aid origin s haid hor hoc hsl]
    exact decodePayloadStr_str s hsne hslb hbad
  · intro aid origin bid ps haid hor hoc hsk hsafe
    rw [payloadToStr_structured ps hsk bid]
    rw [decodeActionPayloadD_encode aid origin (stringifyFlat ps) haid hor hoc
      (slash_not_in_stringifyFlat ps hsafe)]
    exact decodePayloadStr_json ps hsafe
  · intro aid origin haid hor hoc
    rw [show payloadToStr none none = "" from rfl]
    rw [decodeActionPayloadD_encode aid origin "" haid hor hoc (by simp)]
    rfl
  · intro m li pg hm
    exact decodePageToken_encode m li pg hm
  · intro m b hm
    exact decodeTabToken_encode m b hm

/-- Witness for the amended C1 round-trip at concrete tokens. -/
theorem C1_roundtrip_amended_witness :
    routeCb ("n:" ++ "menuB") = .nav "menuB"
    ∧ decodeActionTarget (encodeActionToken "actX" "m1" "7") = ("actX", some "m1")
    ∧ decodeActionPayloadD
        (encodeActionToken "actX" "m1" (payloadToStr (some [("id", JVal.num (-42))]) none))
      = some [("id", JVal.num (-42))]
    ∧ decodeActionPayloadD
        (encodeActionToken "actX" "m1" (payloadToStr (some [("id", JVal.str "hello")]) none))
      = some [("id", JVal.str "hello")]
    ∧ decodeActionPayloadD
        (encodeActionToken "actX" "m1"
          (payloadToStr (some [("a", JVal.num 3), ("b", JVal.str "x")]) none))
      = some [("a", JVal.num 3), ("b", JVal.str "x")]
    ∧ decodeActionPayloadD (encodeActionToken "actX" "m1" (payloadToStr none none)) = none
    ∧ decodePageToken ("p:" ++ "m1" ++ ":" ++ natStr 0 ++ ":" ++ natStr 2)
      = some ("m1", some (Int.ofNat 0), some (Int.ofNat 2))
    ∧ decodeTabToken ("t:" ++ "m1" ++ ":" ++ "tab:a") = some ("m1", "tab:a") := by
  refine ⟨(C1_roundtrip_amended.1 "menuB").1,
    (C1_roundtrip_amended.2.1 "actX" "m1" "7" (by decide) (by decide) (by decide)
      (by decide) (by decide) (by decide)).2,
    C1_roundtrip_amended.2.2.1 "actX" "m1" none (-42) (by decide) (by decide) (by decide),
    C1_roundtrip_amended.2.2.2.1 "actX" "m1" none "hello" (by decide) (by decide)
      (by decide) (by decide) (by decide) (by decide) (by decide),
    C1_roundtrip_amended.2.2.2.2.1 "actX" "m1" none [("a", JVal.num 3), ("b", JVal.str "x")]
      (by decide) (by decide) (by decide) (by decide) ?_,
    C1_roundtrip_amended.2.2.2.2.2.1 "actX" "m1" (by decide) (by decide) (by decide),
    C1_roundtrip_amended.2.2.2.2.2.2.1 "m1" 0 2 (by decide),
    C1_roundtrip_amended.2.2.2.2.2.2.2 "m1" "tab:a" (by decide)⟩
  rintro kv hkv
  rcases List.mem_cons.mp hkv with rfl | hkv2
  · exact ⟨⟨by decide, by decide⟩, trivial⟩
  · rcases List.mem_cons.mp hkv2 with rfl | hkv3
    · exact ⟨⟨by decide, by decide⟩, ⟨by decide, by decide⟩⟩
    · cases hkv3

/-- C2: write-once payload persistence.  (1) Once a payload is persisted in
the conversation session, every replay — whatever callback token, text or
regex match triggers it — observes exactly the persisted payload and leaves
the session unchanged.  (2) A payload staged in the outer session wins over
all later cascade stages.  (3) After a first run resolves a payload from
any stage, it is persisted, and any second replay observes the original.
(4) A `ctx.match` capture wins over trigger re-matching and the callback
token. -/
theorem C2_payload_write_once :
    (∀ (p : Payload) (triggers : List RegexpModel) (upd : ConvUpdate),
      convStep (some p) triggers upd = (p, some p))
    ∧ (∀ (q : Payload) (triggers : List RegexpModel) (upd : ConvUpdate),
        upd.sessionPayload = some q → resolvePayload none triggers upd = some q)
    ∧ (∀ (triggers : List RegexpModel) (upd1 upd2 : ConvUpdate) (p : Payload),
        resolvePayload none triggers upd1 = some p →
        convStep ((convStep none triggers upd1).2) triggers upd2 = (p, some p))
    ∧ (∀ (triggers : List RegexpModel) (upd : ConvUpdate) (arr : List String),
        upd.sessionPayload = none → upd.ctxMatch = some arr → arr.length > 1 →
        resolvePayload none triggers upd
          = some [("id", parseIntOrStr (arr.getD 1 ""))]) := by
  refine ⟨fun p triggers upd => rfl, ?_, ?_, ?_⟩
  · intro q triggers upd hsp
    simp [resolvePayload, hsp]
  · intro triggers upd1 upd2 p hres
    have hstep : convStep none triggers upd1 = (p, some p) := by
      simp [convStep, hres, observedPayload, persistPayload]
    rw [hstep]
    rfl
  · intro triggers upd arr hsp hm hlen
    simp [resolvePayload, stageMatch, hsp, hm, hlen]

/-- Witness for C2 at a concrete persisted payload and concrete replays. -/
theorem C2_payload_write_once_witness :
    convStep (some [("id", JVal.num 7)]) []
        { callbackData := some "a:actY/m2:99" } = ([("id", JVal.num 7)], some [("id", JVal.num 7)])
    ∧ resolvePayload none [] { sessionPayload := some [("id", JVal.str "w")],
                               callbackData := some "a:actY/m2:99" }
      = some [("id", JVal.str "w")]
    ∧ convStep ((convStep none [] { callbackData := some "a:actX/m1:5" }).2) []
        { messageText := some "other" } = ([("id", JVal.num 5)], some [("id", JVal.num 5)])
    ∧ resolvePayload none [] { ctxMatch := some ["item 3", "3"],
                               callbackData := some "a:actX/m1:5" }
      = some [("id", JVal.num 3)] := by
  refine ⟨C2_payload_write_once.1 [("id", JVal.num 7)] [] _,
    C2_payload_write_once.2.1 [("id", JVal.str "w")] [] _ rfl,
    C2_payload_write_once.2.2.1 [] _ _ [("id", JVal.num 5)] (by rfl), ?_⟩
  have h := C2_payload_write_once.2.2.2 [] { ctxMatch := some ["item 3", "3"],
                                             callbackData := some "a:actX/m1:5" }
    ["item 3", "3"] rfl rfl (by decide)
  rw [h]
  rfl

/-! ### Keyboard cell lemmas and the list-section structure -/

theorem cells_addCell (kb : Keyboard) (c : Cell) :
    (kb.addCell c).cells = kb.cells ++ [c] := by
  simp [Keyboard.addCell, Keyboard.cells]

theorem cells_addCells (kb : Keyboard) (cs : List Cell) :
    (kb.addCells cs).cells = kb.cells ++ cs := by
  simp [Keyboard.addCells, Keyboard.cells]

theorem cells_nextRow (kb : Keyboard) : (kb.nextRow).cells = kb.cells := by
  simp [Keyboard.nextRow, Keyboard.cells]

/-- The cell a list item renders to (the body of the loop in engine.ts
lines 256–281). -/
def listItemCell (menuId : String) (ctx : Ctx) (currentPayload : Option Payload)
    (lcfg : ListConfig) (f : JVal → ButtonConfig) (item : JVal) : Cell :=
  let bcfg := applyListDefault lcfg (f item)
  let label := resolveLabel bcfg.label ctx
  .push label (listItemCbData menuId bcfg currentPayload (bcfg.buttonId.getD label))

theorem listLoop_cells (menuId : String) (ctx : Ctx) (cp : Option Payload)
    (lcfg : ListConfig) (f : JVal → ButtonConfig) :
    ∀ (items : List JVal) (colCount : Nat) (kb : Keyboard),
      ((listLoop menuId ctx cp lcfg f items colCount kb).1).cells
        = kb.cells ++ items.map (listItemCell menuId ctx cp lcfg f) := by
  intro items
  induction items with
  | nil => intro colCount kb; simp [listLoop]
  | cons item rest ih =>
    intro colCount kb
    simp only [listLoop, List.map_cons]
    by_cases hw : (decide (colCount > 0) && decide (colCount ≥ lcfg.columns)) = true
    · simp only [hw, if_true, ite_true, ih, cells_addCell, cells_nextRow, listItemCell]
      simp [List.append_assoc]
    · simp only [hw, if_false, Bool.false_eq_true, ite_false, ih, cells_addCell, listItemCell]
      simp [List.append_assoc]

theorem stepList_cells (menuId : String) (ctx : Ctx) (chat : Int)
    (pageSt : PageState) (cp : Option Payload) (st : BuildState) (lcfg : ListConfig)
    (f : JVal → ButtonConfig) (hf : lcfg.renderFn = some f) :
    (stepList menuId ctx chat pageSt cp st lcfg).kb.cells
      = st.kb.cells
        ++ ((lcfg.items.drop
              (((lookupA pageSt (pageKey chat menuId st.listIdx)).getD 0)
                * lcfg.itemsPerPage)).take lcfg.itemsPerPage).map
            (listItemCell menuId ctx cp lcfg f)
        ++ (if totalPagesOf lcfg.items.length lcfg.itemsPerPage > 1 then
              pagRow menuId st.listIdx
                ((lookupA pageSt (pageKey chat menuId st.listIdx)).getD 0)
                (totalPagesOf lcfg.items.length lcfg.itemsPerPage)
            else []) := by
  unfold stepList
  rw [hf]
  by_cases hrc : st.rowCount > 0
  · by_cases htp : totalPagesOf lcfg.items.length lcfg.itemsPerPage > 1
    · simp [hrc, htp, listLoop_cells, cells_addCells, cells_nextRow, List.append_assoc]
    · simp [hrc, htp, listLoop_cells, cells_addCells, cells_nextRow, List.append_assoc]
  · by_cases htp : totalPagesOf lcfg.items.length lcfg.itemsPerPage > 1
    · simp [hrc, htp, listLoop_cells, cells_addCells, cells_nextRow, List.append_assoc]
    · simp [hrc, htp, listLoop_cells, cells_addCells, cells_nextRow, List.append_assoc]

theorem totalPagesOf_ge (N P : Nat) (hP : 0 < P) : N ≤ P * totalPagesOf N P := by
  have hdm := Nat.div_add_mod (N + P - 1) P
  have hmlt := Nat.mod_lt (N + P - 1) hP
  unfold totalPagesOf
  omega

theorem totalPagesOf_last_lt (N P : Nat) (hP : 0 < P) (hN : 1 ≤ N) :
    P * (totalPagesOf N P - 1) < N := by
  have hdm := Nat.div_add_mod (N + P - 1) P
  have hmlt := Nat.mod_lt (N + P - 1) hP
  unfold totalPagesOf
  rcases Nat.eq_zero_or_pos ((N + P - 1) / P) with h0 | hpos
  · rw [h0]; omega
  · have hid : P * ((N + P - 1) / P - 1) = P * ((N + P - 1) / P) - P := by
      have h1 : (N + P - 1) / P = ((N + P - 1) / P - 1) + 1 := by omega
      calc P * ((N + P - 1) / P - 1)
          = P * (((N + P - 1) / P - 1) + 1) - P := by ring_nf; omega
        _ = P * ((N + P - 1) / P) - P := by rw [← h1]
    omega

/-- C3: pagination arithmetic and controls of a rendered list.  With the
current page `pg` for the single list of a menu: (a) the rendered cells are
exactly the `renderItem` cells of the page slice
`items.slice(pg*P, pg*P + P)` followed, exactly when there is more than one
page, by the pagination-controls row; (b) the number of pages `tp`
satisfies `ceil(N/P)`'s characterization `N ≤ P*tp` and (for a non-empty
list) `P*(tp-1) < N`; (c) page 0 shows `min P N` items; (d) the last page
shows `N - P*(tp-1)` items; (e) on the last page the controls row carries
no next-page control; (f) on a page `pg > 0` with more than one page the
controls row starts with the previous-page control. -/
theorem C3_pagination (items : List JVal) (P C pg : Nat) (f : JVal → ButtonConfig)
    (m : String) (ctx : Ctx) (chat : Int) (mx : Nat) (hP : 0 < P) :
    (buildKeyboard m
        { elements := [.list { items := items, itemsPerPage := P, columns := C,
                               renderFn := some f }],
          maxPerRow := mx }
        ctx chat [(pageKey chat m 0, pg)] none).keyboard.cells
      = ((items.drop (pg * P)).take P).map
          (listItemCell m ctx none
            { items := items, itemsPerPage := P, columns := C, renderFn := some f } f)
        ++ (if totalPagesOf items.length P > 1 then
              pagRow m 0 pg (totalPagesOf items.length P)
            else [])
    ∧ (items.length ≤ P * totalPagesOf items.length P
       ∧ (1 ≤ items.length → P * (totalPagesOf items.length P - 1) < items.length))
    ∧ ((items.drop (0 * P)).take P).length = min P items.length
    ∧ (1 ≤ items.length → pg = totalPagesOf items.length P - 1 →
        ((items.drop (pg * P)).take P).length = items.length - pg * P)
    ∧ (pg = totalPagesOf items.length P - 1 →
        pagRow m 0 pg (totalPagesOf items.length P)
          = (if pg > 0 then
              [Cell.push "⬅️" ("p:" ++ m ++ ":" ++ natStr 0 ++ ":" ++ natStr (pg - 1))]
            else [])
            ++ [Cell.push (natStr (pg + 1) ++ "/" ++ natStr (totalPagesOf items.length P))
                  ("_:" ++ m ++ ":page-info")])
    ∧ (0 < pg →
        pagRow m 0 pg (totalPagesOf items.length P)
          = Cell.push "⬅️" ("p:" ++ m ++ ":" ++ natStr 0 ++ ":" ++ natStr (pg - 1))
            :: [Cell.push (natStr (pg + 1) ++ "/" ++ natStr (totalPagesOf items.length P))
                  ("_:" ++ m ++ ":page-info")]
            ++ (if pg < totalPagesOf items.length P - 1 then
                  [Cell.push "➡️" ("p:" ++ m ++ ":" ++ natStr 0 ++ ":" ++ natStr (pg + 1))]
                else [])) := by
  refine ⟨?_, ⟨totalPagesOf_ge _ _ hP, fun hN => totalPagesOf_last_lt _ _ hP hN⟩, ?_, ?_, ?_, ?_⟩
  · unfold buildKeyboard
    simp only [prescan, findDefaultBtn]
    show (buildElems m mx ctx chat [(pageKey chat m 0, pg)] none {}
        [.list { items := items, itemsPerPage := P, columns := C, renderFn := some f }]).kb.cells
      = _
    simp only [buildElems, buildStep]
    rw [stepList_cells m ctx chat [(pageKey chat m 0, pg)] none {}
      { items := items, itemsPerPage := P, columns := C, renderFn := some f } f rfl]
    simp [lookupA, Keyboard.cells]
  · simp [List.length_take, List.length_drop]
  · intro hN hpg
    have h1 := totalPagesOf_ge items.length P hP
    have h2 := totalPagesOf_last_lt items.length P hP hN
    subst hpg
    simp only [List.length_take, List.length_drop]
    have hpos : 0 < totalPagesOf items.length P := by
      by_contra h
      have h0 : totalPagesOf items.length P = 0 := by omega
      rw [h0] at h1
      omega
    have htp1 : totalPagesOf items.length P = (totalPagesOf items.length P - 1) + 1 := by
      omega
    have hsum : P * totalPagesOf items.length P
        = P * (totalPagesOf items.length P - 1) + P := by
      calc P * totalPagesOf items.length P
          = P * ((totalPagesOf items.length P - 1) + 1) := by rw [← htp1]
        _ = P * (totalPagesOf items.length P - 1) + P := by ring
    have hc : (totalPagesOf items.length P - 1) * P
        = P * (totalPagesOf items.length P - 1) := Nat.mul_comm _ _
    rw [hc]
    omega
  · intro hpg
    rw [hpg]
    simp [pagRow]
  · intro hpg
    simp [pagRow, hpg]

/-- Witness for C3: 12 items, 5 per page, 1 column, page index 2 — items
10–11 are shown, a previous-page control is present and no next-page
control is emitted; 12 items at 5 per page make 3 pages. -/
theorem C3_pagination_witness :
    (buildKeyboard "m"
        { elements := [.list { items := [.num 0, .num 1, .num 2, .num 3, .num 4, .num 5,
                                         .num 6, .num 7, .num 8, .num 9, .num 10, .num 11],
                               itemsPerPage := 5, columns := 1,
                               renderFn := some (fun _ => { label := .lit "i" }) }],
          maxPerRow := 0 }
        {} 1 [(pageKey 1 "m" 0, 2)] none).keyboard.cells
      = [.push "i" "_:m:i", .push "i" "_:m:i",
         .push "⬅️" ("p:" ++ "m" ++ ":" ++ natStr 0 ++ ":" ++ natStr 1),
         .push (natStr 3 ++ "/" ++ natStr 3) ("_:" ++ "m" ++ ":page-info")]
    ∧ totalPagesOf 12 5 = 3 := by
  have h := C3_pagination
    [.num 0, .num 1, .num 2, .num 3, .num 4, .num 5,
     .num 6, .num 7, .num 8, .num 9, .num 10, .num 11]
    5 1 2 (fun _ => { label := .lit "i" }) "m" {} 1 0 (by decide)
  exact ⟨h.1.trans (by decide), by decide⟩

/-- C4 counterexample: a list-item button produced by `renderItem` whose
guard evaluates to `false` under the current context is still rendered and
still receives a callback token — the list arm of `buildKeyboard` never
evaluates guards (engine.ts lines 255–281, which contain no `passesGuard`
call). -/
theorem C4_counterexample :
    (buildKeyboard "m"
        { elements := [.list { items := [.num 1], itemsPerPage := 5, columns := 1,
                               renderFn := some (fun _ =>
                                 { label := .lit "Hidden",
                                   guard := some (fun _ => false) }) }],
          maxPerRow := 0 }
        {} 1 [] none).keyboard.cells
      = [.push "Hidden" "_:m:Hidden"]
    ∧ passesGuard (some (fun _ => false)) {} = false := by
  exact ⟨rfl, rfl⟩

/-- The cell a visible button element renders to. -/
def buttonCellOf (menuId : String) (ctx : Ctx) (cp : Option Payload) (idx : Nat)
    (cfg : ButtonConfig) : Cell :=
  let label := resolveLabel cfg.label ctx
  match cfg.url with
  | some u => .link label u
  | none => .push label (buttonCbData menuId cfg idx cp (cfg.buttonId.getD label))

/-- The cells of a run of button elements: exactly the guard-passing
buttons, each with the stable index it owns in declaration order. -/
def guardCells (menuId : String) (ctx : Ctx) (cp : Option Payload) :
    Nat → List ButtonConfig → List Cell
  | _, [] => []
  | i, cfg :: rest =>
    if passesGuard cfg.guard ctx then
      buttonCellOf menuId ctx cp i cfg :: guardCells menuId ctx cp (i + 1) rest
    else guardCells menuId ctx cp (i + 1) rest

theorem buildElems_append (m : String) (mx : Nat) (ctx : Ctx) (chat : Int)
    (ps : PageState) (cp : Option Payload) :
    ∀ (xs ys : List LayoutElement) (st : BuildState),
      buildElems m mx ctx chat ps cp st (xs ++ ys)
        = buildElems m mx ctx chat ps cp (buildElems m mx ctx chat ps cp st xs) ys := by
  intro xs
  induction xs with
  | nil => intro ys st; rfl
  | cons x tl ih =>
    intro ys st
    show buildElems m mx ctx chat ps cp (buildStep m mx ctx chat ps cp st x) (tl ++ ys) = _
    rw [ih]
    rfl

theorem buildElems_simple (m : String) (mx : Nat) (ctx : Ctx) (chat : Int)
    (ps : PageState) (cp : Option Payload) :
    ∀ (adds : List SimpleEl) (st : BuildState),
      (buildElems m mx ctx chat ps cp st (adds.map simpleToElement)).kb = st.kb := by
  intro adds
  induction adds with
  | nil => intro st; rfl
  | cons a tl ih =>
    intro st
    cases a with
    | textE c pm => simp only [List.map_cons, simpleToElement, buildElems, buildStep, ih]
    | imageE u => simp only [List.map_cons, simpleToElement, buildElems, buildStep, ih]

theorem buildElems_buttons_cells (m : String) (mx : Nat) (ctx : Ctx) (chat : Int)
    (ps : PageState) (cp : Option Payload) :
    ∀ (cfgs : List ButtonConfig) (st : BuildState),
      ((buildElems m mx ctx chat ps cp st (cfgs.map .button)).kb).cells
        = st.kb.cells ++ guardCells m ctx cp st.btnIndex cfgs := by
  intro cfgs
  induction cfgs with
  | nil => intro st; simp [buildElems, guardCells]
  | cons cfg rest ih =>
    intro st
    simp only [List.map_cons, buildElems, buildStep, stepButton, guardCells]
    by_cases hg : passesGuard cfg.guard ctx
    · simp only [hg, Bool.not_true, Bool.false_eq_true, if_false, ite_false, if_true,
        ite_true]
      cases hurl : cfg.url with
      | some u =>
        by_cases hrow : (cfg.forceRow || (decide (mx > 0) && decide (st.rowCount ≥ mx))) = true
        · simp only [hrow, if_true, ite_true, ih, cells_addCell, cells_nextRow]
          simp [buttonCellOf, hurl, List.append_assoc]
        · simp only [hrow, if_false, Bool.false_eq_true, ite_false, ih, cells_addCell]
          simp [buttonCellOf, hurl, List.append_assoc]
      | none =>
        by_cases hrow : (cfg.forceRow || (decide (mx > 0) && decide (st.rowCount ≥ mx))) = true
        · simp only [hrow, if_true, ite_true, ih, cells_addCell, cells_nextRow]
          simp [buttonCellOf, hurl, List.append_assoc]
        · simp only [hrow, if_false, Bool.false_eq_true, ite_false, ih, cells_addCell]
          simp [buttonCellOf, hurl, List.append_assoc]
    · simp only [hg, Bool.not_false, if_true, ite_true]
      exact ih _

theorem guardCells_nil_of_all_false (m : String) (ctx : Ctx) (cp : Option Payload) :
    ∀ (cfgs : List ButtonConfig) (i : Nat),
      (∀ cfg ∈ cfgs, passesGuard cfg.guard ctx = false) →
      guardCells m ctx cp i cfgs = [] := by
  intro cfgs
  induction cfgs with
  | nil => intro i _; rfl
  | cons cfg rest ih =>
    intro i hall
    have h1 := hall cfg (List.mem_cons_self _ _)
    simp only [guardCells, h1, Bool.false_eq_true, if_false, ite_false]
    exact ih _ (fun c hc => hall c (List.mem_cons_of_mem _ hc))

/-- The pre-scan can only append text/image writes, never buttons. -/
theorem prescan_cells (m : String) (mx : Nat) (ctx : Ctx) (chat : Int)
    (ps : PageState) (cp : Option Payload) (els : List LayoutElement) (st : BuildState) :
    (buildElems m mx ctx chat ps cp st (prescan els)).kb
      = (buildElems m mx ctx chat ps cp st els).kb := by
  unfold prescan
  cases hfd : findDefaultBtn els with
  | none => rfl
  | some cfg =>
    cases hact : cfg.action with
    | none => simp only [hact]
    | some a =>
      cases a with
      | ref i => simp only [hact]
      | sync adds =>
        simp only [hact]
        rw [buildElems_append, buildElems_simple]

/-- C4 (amended): guard hiding holds for the directly declared button
elements of a layout — the rendered cells are exactly the guard-passing
buttons with their stable declaration indices, so a guard-false button
element appears nowhere and receives no token; in particular a layout all
of whose buttons fail their guards renders an empty keyboard.  (List-item
buttons produced by `renderItem` are *not* covered: the list arm renders
them without evaluating guards — see the counterexample.) -/
theorem C4_guard_hiding_amended :
    ∀ (cfgs : List ButtonConfig) (m : String) (mx : Nat) (ctx : Ctx) (chat : Int)
      (ps : PageState) (cp : Option Payload),
      (buildKeyboard m { elements := cfgs.map .button, maxPerRow := mx }
          ctx chat ps none cp).keyboard.cells
        = guardCells m ctx cp 0 cfgs
      ∧ ((∀ cfg ∈ cfgs, passesGuard cfg.guard ctx = false) →
          (buildKeyboard m { elements := cfgs.map .button, maxPerRow := mx }
              ctx chat ps none cp).keyboard.cells = []) := by
  intro cfgs m mx ctx chat ps cp
  have hmain : (buildKeyboard m { elements := cfgs.map .button, maxPerRow := mx }
      ctx chat ps none cp).keyboard.cells = guardCells m ctx cp 0 cfgs := by
    show (buildElems m mx ctx chat ps cp {} (prescan (cfgs.map .button))).kb.cells = _
    rw [show (buildElems m mx ctx chat ps cp {} (prescan (cfgs.map .button))).kb
        = (buildElems m mx ctx chat ps cp {} (cfgs.map .button)).kb
      from prescan_cells m mx ctx chat ps cp (cfgs.map .button) {}]
    rw [buildElems_buttons_cells]
    rfl
  exact ⟨hmain, fun hall => hmain.trans (guardCells_nil_of_all_false m ctx cp cfgs 0 hall)⟩

/-- Witness for the amended C4: two buttons, the second guard-false — only
the first is rendered, with its token; with both guards false nothing is
rendered. -/
theorem C4_guard_hiding_amended_witness :
    (buildKeyboard "m"
        { elements := [LayoutElement.button { label := .lit "A" },
                       LayoutElement.button { label := .lit "B",
                                              guard := some (fun _ => false) }],
          maxPerRow := 0 }
        {} 1 [] none).keyboard.cells
      = [.push "A" "_:m:A"]
    ∧ (buildKeyboard "m"
        { elements := [LayoutElement.button { label := .lit "B",
                                              guard := some (fun _ => false) }],
          maxPerRow := 0 }
        {} 1 [] none).keyboard.cells
      = [] := by
  constructor
  · have h := (C4_guard_hiding_amended
      [{ label := .lit "A" }, { label := .lit "B", guard := some (fun _ => false) }]
      "m" 0 {} 1 [] none).1
    exact h.trans rfl
  · exact (C4_guard_hiding_amended
      [{ label := .lit "B", guard := some (fun _ => false) }]
      "m" 0 {} 1 [] none).2 (by
        intro cfg hc
        rcases List.mem_cons.mp hc with rfl | h2
        · rfl
        · cases h2)

theorem rows_nextRow_addCell (kb : Keyboard) (c : Cell) :
    ((kb.nextRow).addCell c).rows = kb.rows ++ [[c]] := by
  simp [Keyboard.nextRow, Keyboard.addCell, Keyboard.rows]

/-- C5: Back control.  (1) For any layout, rendering with a Back target
appends exactly one trailing row holding exactly the Back control,
`n:`-targeted at the parent; without a Back target nothing is appended.
(2) `n:` tokens are routed to navigation, never to an action.
(3) Re-discovering an already-registered menu — from any other parent —
leaves the registry untouched: the first-discovered parent wins.
(4) In the concrete tree root→A→B, discovery assigns B the parent A (and A
the parent root, and root none).  (5) Rendering B emits the Back control
targeting A; (6) rendering the root emits no Back control. -/
theorem C5_back_control :
    (∀ (m : String) (layout : Layout) (ctx : Ctx) (chat : Int) (ps : PageState)
       (cp : Option Payload) (b : String),
      (buildKeyboard m layout ctx chat ps (some b) cp).keyboard.rows
        = (buildKeyboard m layout ctx chat ps none cp).keyboard.rows
          ++ [[Cell.push "◀️ Back" ("n:" ++ b)]])
    ∧ (∀ b : String, routeCb ("n:" ++ b) = .nav b)
    ∧ (∀ (univ : MenuUniverse) (f : Nat) (x : String) (p' : Option String)
        (acc : MenuRegistry), (lookupA acc x).isSome = true →
        collectGo univ (f + 1) [(x, p')] acc = acc)
    ∧ ((collectMenuTree
          [("root", fun _ => { elements := [.button { label := .lit "toA",
                                                      submenu := some "A" }] }),
           ("A", fun _ => { elements := [.button { label := .lit "toB",
                                                   submenu := some "B" }] }),
           ("B", fun _ => { elements := [] })] 10 "root").map
          (fun e => (e.1, e.2.parent))
        = [("root", none), ("A", some "root"), ("B", some "A")])
    ∧ ((renderMenu (collectMenuTree
          [("root", fun _ => { elements := [.button { label := .lit "toA",
                                                      submenu := some "A" }] }),
           ("A", fun _ => { elements := [.button { label := .lit "toB",
                                                   submenu := some "B" }] }),
           ("B", fun _ => { elements := [] })] 10 "root") "root" 1 "B" {} 1 []).map
          (fun r => (r.1, r.2.keyboard.rows))
        = some ("B", [[], [Cell.push "◀️ Back" ("n:" ++ "A")]]))
    ∧ ((renderMenu (collectMenuTree
          [("root", fun _ => { elements := [.button { label := .lit "toA",
                                                      submenu := some "A" }] }),
           ("A", fun _ => { elements := [.button { label := .lit "toB",
                                                   submenu := some "B" }] }),
           ("B", fun _ => { elements := [] })] 10 "root") "root" 1 "root" {} 1 []).map
          (fun r => (r.1, r.2.keyboard.rows))
        = some ("root", [[Cell.push "toA" "n:A"]])) := by
  refine ⟨?_, fun b => rfl, ?_, rfl, rfl, rfl⟩
  · intro m layout ctx chat ps cp b
    exact rows_nextRow_addCell _ _
  · intro univ f x p' acc h
    show (if (lookupA acc x).isSome then collectGo univ f [] acc
      else _) = acc
    rw [h]
    simp only [if_true, ite_true]
    cases f <;> rfl

/-- Witness for C5 at a concrete layout and registry. -/
theorem C5_back_control_witness :
    (buildKeyboard "B" { elements := [] } {} 1 [] (some "A") none).keyboard.rows
      = (buildKeyboard "B" { elements := [] } {} 1 [] none none).keyboard.rows
        ++ [[Cell.push "◀️ Back" ("n:" ++ "A")]]
    ∧ routeCb ("n:" ++ "A") = .nav "A"
    ∧ collectGo [] 3 [("B", some "other")] [("B", { builder := fun _ => {},
                                                    parent := some "A" })]
      = [("B", { builder := fun _ => {}, parent := some "A" })] := by
  refine ⟨C5_back_control.1 "B" { elements := [] } {} 1 [] none "A",
    C5_back_control.2.1 "A",
    C5_back_control.2.2.1 [] 2 "B" (some "other") _ (by rfl)⟩

theorem lookupA_append_left {β : Type} {acc : List (String × β)} {x : String} {v : β}
    (h : lookupA acc x = some v) (l : List (String × β)) :
    lookupA (acc ++ l) x = some v := by
  induction acc with
  | nil => cases h
  | cons kv rest ih =>
    simp only [lookupA, List.cons_append] at h ⊢
    by_cases hk : kv.1 = x
    · simpa [hk] using h
    · rw [if_neg hk] at h ⊢
      exact ih h

theorem collectGo_preserves (univ : MenuUniverse) :
    ∀ (fuel : Nat) (work : List (String × Option String)) (acc : MenuRegistry)
      (x : String), (lookupA acc x).isSome = true →
      (lookupA (collectGo univ fuel work acc) x).isSome = true := by
  intro fuel
  induction fuel with
  | zero => intro work acc x h; exact h
  | succ f ih =>
    intro work acc x h
    cases work with
    | nil => exact h
    | cons w rest =>
      obtain ⟨menuId, parentId⟩ := w
      show (lookupA (if (lookupA acc menuId).isSome then collectGo univ f rest acc
        else _) x).isSome = true
      by_cases hm : (lookupA acc menuId).isSome = true
      · rw [hm]
        simp only [if_true, ite_true]
        exact ih rest acc x h
      · simp only [hm, Bool.false_eq_true, if_false, ite_false]
        apply ih
        obtain ⟨v, hv⟩ : ∃ v, lookupA acc x = some v := by
          cases hl : lookupA acc x with
          | none => rw [hl] at h; cases h
          | some v => exact ⟨v, rfl⟩
        rw [lookupA_append_left hv]
        rfl

/-- C6: a navigation request naming an unregistered menu id does not fail
and does not leave the chat without a menu: `renderMenu` falls back to
rendering the root menu with the root's own layout and Back target.
Moreover discovery always registers the root itself, so the fallback
target always exists. -/
theorem C6_unknown_menu_falls_back :
    (∀ (menus : MenuRegistry) (rootId badId : String) (ctx : Ctx) (chat : Int)
       (ps : PageState) (r : CollectedMenu),
      lookupA menus badId = none → lookupA menus rootId = some r →
      renderMenu menus rootId 2 badId ctx chat ps
        = some (rootId, buildKeyboard rootId (r.builder ctx) ctx chat ps r.parent))
    ∧ (∀ (univ : MenuUniverse) (f : Nat) (rootId : String),
        (lookupA (collectMenuTree univ (f + 1) rootId) rootId).isSome = true) := by
  constructor
  · intro menus rootId badId ctx chat ps r hbad hroot
    show (match lookupA menus badId with
      | none => renderMenu menus rootId 1 rootId ctx chat ps
      | some m => some (badId, buildKeyboard badId (m.builder ctx) ctx chat ps m.parent))
      = _
    rw [hbad]
    show (match lookupA menus rootId with
      | none => renderMenu menus rootId 0 rootId ctx chat ps
      | some m => some (rootId, buildKeyboard rootId (m.builder ctx) ctx chat ps m.parent))
      = _
    rw [hroot]
  · intro univ f rootId
    show (lookupA (collectGo univ (f + 1) [(rootId, none)] []) rootId).isSome = true
    rw [show collectGo univ (f + 1) [(rootId, none)] ([] : MenuRegistry)
        = collectGo univ f
            ((submenusOf (((lookupA univ rootId).getD (fun _ => {})) mockCtx).elements).map
              (fun c => (c, some rootId)) ++ [])
            ([] ++ [(rootId, { builder := (lookupA univ rootId).getD (fun _ => {}),
                               parent := none })]) from rfl]
    apply collectGo_preserves
    simp [lookupA]

/-- Witness for C6: a ghost menu id falls back to the registered root. -/
theorem C6_unknown_menu_falls_back_witness :
    renderMenu [("root", { builder := fun _ => { elements := [] }, parent := none })]
        "root" 2 "ghost" {} 1 []
      = some ("root", buildKeyboard "root" { elements := [] } {} 1 [] none)
    ∧ (lookupA (collectMenuTree [] 1 "root") "root").isSome = true := by
  exact ⟨C6_unknown_menu_falls_back.1
    [("root", { builder := fun _ => { elements := [] }, parent := none })]
    "root" "ghost" {} 1 [] { builder := fun _ => { elements := [] }, parent := none }
    rfl rfl,
    C6_unknown_menu_falls_back.2 [] 0 "root"⟩

/-- C7 (divergence at the failing input): pressing Cancel during an `ask`
resolves the call to `undefined` (both for the automatic Cancel of an
input prompt and for the appended Cancel of a choice keyboard) and the
conversation instance ends — but the menu rendered in place of the prompt
is the *root* menu, not the conversation's origin menu: `navigateTo()` is
called with no argument, `navigate` then targets `rootRef.id`, and the
`originMenuId` stored in the session by the `a:` middleware is never read.
Here the conversation was entered from menu `"A"`, yet the render target
is `"root"`. -/
theorem C7_cancel_renders_root_not_origin :
    askInput "Q?" { type := .number } [.cbData "cancel_conversation"]
      = .cancelled ["Q?"]
    ∧ askChoice "Pick" [.cbData "ask:__cancel__"] = .cancelled ["Pick"]
    ∧ cancelNavTarget "root" none = "root"
    ∧ (renderMenu
        [("root", { builder := fun _ => { elements := [] }, parent := none }),
         ("A", { builder := fun _ => { elements := [] }, parent := some "root" })]
        "root" 1 (cancelNavTarget "root" none) {} 1 []).map (fun r => r.1)
      = some "root"
    ∧ "root" ≠ "A" := by
  refine ⟨rfl, rfl, rfl, rfl, by decide⟩

theorem findDefaultBtn_simple (labels : List String) :
    findDefaultBtn (labels.map (fun l => LayoutElement.button { label := .lit l }))
      = none := by
  induction labels with
  | nil => rfl
  | cons l tl ih => simpa [findDefaultBtn] using ih

theorem buildElems_simpleButtons (m : String) (ctx : Ctx) (chat : Int)
    (ps : PageState) (cp : Option Payload) :
    ∀ (labels : List String) (st : BuildState),
      (buildElems m 0 ctx chat ps cp st
          (labels.map (fun l => LayoutElement.button { label := .lit l }))).kb
        = { closed := st.kb.closed,
            current := st.kb.current
              ++ labels.map (fun l => Cell.push l ("_:" ++ m ++ ":" ++ l)) } := by
  intro labels
  induction labels with
  | nil =>
    intro st
    simp only [List.map_nil, buildElems, List.append_nil]
  | cons l tl ih =>
    intro st
    simp only [List.map_cons, buildElems, buildStep, stepButton, passesGuard,
      Bool.not_true, Bool.false_eq_true, if_false, ite_false]
    rw [ih]
    simp [Keyboard.addCell, resolveLabel, buttonCbData, List.append_assoc]

/-- C8: row grouping.  A menu with `maxPerRow = 2` and three unforced,
guard-passing buttons X, Y, Z renders exactly the grid `[[X, Y], [Z]]`;
and with `maxPerRow = 0` every unforced button lands on the single open
row. -/
theorem C8_row_grouping :
    (buildKeyboard "m"
        { elements := [.button { label := .lit "X" }, .button { label := .lit "Y" },
                       .button { label := .lit "Z" }],
          maxPerRow := 2 }
        {} 1 [] none).keyboard.rows
      = [[.push "X" "_:m:X", .push "Y" "_:m:Y"], [.push "Z" "_:m:Z"]]
    ∧ ∀ (labels : List String) (m : String) (ctx : Ctx) (chat : Int) (ps : PageState),
        (buildKeyboard m
            { elements := labels.map (fun l => LayoutElement.button { label := .lit l }),
              maxPerRow := 0 }
            ctx chat ps none).keyboard.rows
          = [labels.map (fun l => Cell.push l ("_:" ++ m ++ ":" ++ l))] := by
  refine ⟨rfl, ?_⟩
  intro labels m ctx chat ps
  show (buildElems m 0 ctx chat ps none {}
      (prescan (labels.map (fun l => LayoutElement.button { label := .lit l })))).kb.rows
    = _
  rw [show prescan (labels.map (fun l => LayoutElement.button { label := .lit l }))
      = labels.map (fun l => LayoutElement.button { label := .lit l }) by
    unfold prescan
    rw [findDefaultBtn_simple]]
  rw [buildElems_simpleButtons]
  simp [Keyboard.rows]

/-- C9: `ask` with type `number` and `validate n > 0`.  Concretely, on the
replies `"abc"` then `"5"`: the first reply re-prompts with the
number-specific type error prefixed to the question without resolving the
call, and the second resolves the same call to the coerced number `5` — a
number, not the string `"5"`.  Generally, whenever a number-`ask` with a
validator resolves at all, the resolved value is a number satisfying the
validator: validation failures never escape the loop. -/
theorem C9_ask_number_validation :
    askInput "N?" { type := .number, validateNum := some (fun n => decide (n > 0)) }
        [.textMsg "abc"]
      = .waiting (rePrompt "Please send a valid number." "N?")
          ["N?", rePrompt "Please send a valid number." "N?"]
    ∧ askInput "N?" { type := .number, validateNum := some (fun n => decide (n > 0)) }
        [.textMsg "abc", .textMsg "5"]
      = .resolved (.numV 5) ["N?", rePrompt "Please send a valid number." "N?"]
    ∧ AskValue.numV 5 ≠ AskValue.strV "5"
    ∧ (∀ (q : String) (f : Int → Bool) (em : Option String) (upds : List Upd)
        (p : String) (ps : List String) (v : AskValue) (ps' : List String),
        askWait q { type := .number, validateNum := some f, errorMessage := em }
            upds p ps = .resolved v ps' →
        ∃ n, v = .numV n ∧ f n = true) := by
  refine ⟨rfl, rfl, by decide, ?_⟩
  intro q f em upds
  induction upds with
  | nil =>
    intro p ps v ps' h
    cases h
  | cons u rest ih =>
    intro p ps v ps' h
    cases u with
    | cbData d =>
      by_cases hd : d = "cancel_conversation"
      · rw [show askWait q { type := .number, validateNum := some f, errorMessage := em }
            (.cbData d :: rest) p ps = .cancelled ps by
          simp [askWait, hd]] at h
        cases h
      · rw [show askWait q { type := .number, validateNum := some f, errorMessage := em }
            (.cbData d :: rest) p ps
            = askWait q { type := .number, validateNum := some f, errorMessage := em }
                rest (rePrompt (askErr { type := .number, validateNum := some f,
                                         errorMessage := em } "Please send a text message.") q)
                (ps ++ [rePrompt (askErr { type := .number, validateNum := some f,
                                           errorMessage := em } "Please send a text message.") q])
          by simp [askWait, hd]] at h
        exact ih _ _ v ps' h
    | photoMsg fids =>
      rw [show askWait q { type := .number, validateNum := some f, errorMessage := em }
          (.photoMsg fids :: rest) p ps
          = askWait q { type := .number, validateNum := some f, errorMessage := em }
              rest p ps by simp [askWait]] at h
      exact ih _ _ v ps' h
    | textMsg raw =>
      cases hn : jsStrToNum raw with
      | none =>
        rw [show askWait q { type := .number, validateNum := some f, errorMessage := em }
            (.textMsg raw :: rest) p ps
            = askWait q { type := .number, validateNum := some f, errorMessage := em }
                rest (rePrompt (askErr { type := .number, validateNum := some f,
                                         errorMessage := em } "Please send a valid number.") q)
                (ps ++ [rePrompt (askErr { type := .number, validateNum := some f,
                                           errorMessage := em } "Please send a valid number.") q])
          by simp [askWait, hn]] at h
        exact ih _ _ v ps' h
      | some n =>
        by_cases hv : f n = true
        · rw [show askWait q { type := .number, validateNum := some f, errorMessage := em }
              (.textMsg raw :: rest) p ps = .resolved (.numV n) ps by
            simp [askWait, hn, hv]] at h
          obtain ⟨rfl, rfl⟩ : v = .numV n ∧ ps' = ps := by
            cases h
            exact ⟨rfl, rfl⟩
          exact ⟨n, rfl, hv⟩
        · rw [show askWait q { type := .number, validateNum := some f, errorMessage := em }
              (.textMsg raw :: rest) p ps
              = askWait q { type := .number, validateNum := some f, errorMessage := em }
                  rest (rePrompt (askErr { type := .number, validateNum := some f,
                                           errorMessage := em } "Invalid input. Try again.") q)
                  (ps ++ [rePrompt (askErr { type := .number, validateNum := some f,
                                             errorMessage := em } "Invalid input. Try again.") q])
            by simp [askWait, hn, hv]] at h
          exact ih _ _ v ps' h

/-- Witness for C9's general conjunct: the validated resolution at the
concrete scenario. -/
theorem C9_ask_number_validation_witness :
    ∃ n, AskValue.numV 5 = AskValue.numV n ∧ decide (n > 0) = true := by
  exact C9_ask_number_validation.2.2.2 "N?" (fun n => decide (n > 0)) none
    [.textMsg "abc", .textMsg "5"] "N?" ["N?"] (.numV 5)
    ["N?", rePrompt "Please send a valid number." "N?"] (by rfl)

/-- C10: payload inheritance at render time.  Inside an action's own layout
(the enclosing id is the action's, which starts with `a`): (1) an
inline-handler button with no payload of its own gets the enclosing
action's current payload embedded in its `ai:` token; (2) one with an
explicit payload keeps its own; (3) a list-item button resolving to an
action reference with no payload of its own embeds the enclosing payload
in its `a:` token; (4) one with an explicit payload keeps its own; (5) for
a `{id: n}` payload the embedded token decodes back to exactly that
payload, so the child action receives the parent's payload. -/
theorem C10_payload_inheritance :
    (∀ (aid l : String) (P : Payload) (ctx : Ctx) (chat : Int) (ps : PageState),
      sLeadsWith "a" aid = true →
      (buildKeyboard aid
          { elements := [.button { label := .lit l, inlineHandler := true }],
            maxPerRow := 0 }
          ctx chat ps none (some P)).keyboard.cells
        = [.push l ("ai:" ++ ("a" ++ aid ++ "_" ++ natStr 0) ++ "/" ++ aid ++ ":"
            ++ payloadToStr (some P) none)])
    ∧ (∀ (aid l : String) (P Q : Payload) (ctx : Ctx) (chat : Int) (ps : PageState),
        sLeadsWith "a" aid = true →
        (buildKeyboard aid
            { elements := [.button { label := .lit l, inlineHandler := true,
                                     payload := some Q }],
              maxPerRow := 0 }
            ctx chat ps none (some P)).keyboard.cells
          = [.push l ("ai:" ++ ("a" ++ aid ++ "_" ++ natStr 0) ++ "/" ++ aid ++ ":"
              ++ payloadToStr (some Q) none)])
    ∧ (∀ (aid cid l : String) (it : JVal) (P : Payload) (ctx : Ctx) (chat : Int),
        (buildKeyboard aid
            { elements := [.list { items := [it], itemsPerPage := 10, columns := 1,
                                   renderFn := some (fun _ =>
                                     { label := .lit l, action := some (.ref cid) }) }],
              maxPerRow := 0 }
            ctx chat [] none (some P)).keyboard.cells
          = [.push l ("a:" ++ cid ++ "/" ++ aid ++ ":" ++ payloadToStr (some P) none)])
    ∧ (∀ (aid cid l : String) (it : JVal) (P Q : Payload) (ctx : Ctx) (chat : Int),
        (buildKeyboard aid
            { elements := [.list { items := [it], itemsPerPage := 10, columns := 1,
                                   renderFn := some (fun _ =>
                                     { label := .lit l, action := some (.ref cid),
                                       payload := some Q }) }],
              maxPerRow := 0 }
            ctx chat [] none (some P)).keyboard.cells
          = [.push l ("a:" ++ cid ++ "/" ++ aid ++ ":" ++ payloadToStr (some Q) none)])
    ∧ (∀ (cid aid : String) (n : Int),
        '/' ∉ cid.data → '/' ∉ aid.data → ':' ∉ aid.data →
        decodeActionPayloadD ("a:" ++ cid ++ "/" ++ aid ++ ":"
            ++ payloadToStr (some [("id", JVal.num n)]) none)
          = some [("id", JVal.num n)]) := by
  refine ⟨?_, ?_, ?_, ?_, ?_⟩
  · intro aid l P ctx chat ps h
    show (buildElems aid 0 ctx chat ps (some P) {}
        (prescan [.button { label := .lit l, inlineHandler := true }])).kb.cells = _
    simp only [prescan, findDefaultBtn, Bool.false_eq_true, if_false, ite_false,
      buildElems, buildStep, stepButton, passesGuard, Bool.not_true, buttonCbData,
      if_true, ite_true, resolveStableId, resolveLabel, h]
    rfl
  · intro aid l P Q ctx chat ps h
    show (buildElems aid 0 ctx chat ps (some P) {}
        (prescan [.button { label := .lit l, inlineHandler := true,
                            payload := some Q }])).kb.cells = _
    simp only [prescan, findDefaultBtn, Bool.false_eq_true, if_false, ite_false,
      buildElems, buildStep, stepButton, passesGuard, Bool.not_true, buttonCbData,
      if_true, ite_true, resolveStableId, resolveLabel, h]
    rfl
  · intro aid cid l it P ctx chat
    show (stepList aid ctx chat [] (some P) {}
        { items := [it], itemsPerPage := 10, columns := 1,
          renderFn := some (fun _ => { label := DynLabel.lit l,
                                       action := some (BtnAction.ref cid) }) }).kb.cells = _
    rw [stepList_cells aid ctx chat [] (some P) {} _ _ rfl]
    simp [listItemCell, applyListDefault, setAction, listItemCbData, resolveLabel,
      totalPagesOf, lookupA, Keyboard.cells]
  · intro aid cid l it P Q ctx chat
    show (stepList aid ctx chat [] (some P) {}
        { items := [it], itemsPerPage := 10, columns := 1,
          renderFn := some (fun _ => { label := DynLabel.lit l,
                                       action := some (BtnAction.ref cid),
                                       payload := some Q }) }).kb.cells = _
    rw [stepList_cells aid ctx chat [] (some P) {} _ _ rfl]
    simp [listItemCell, applyListDefault, setAction, listItemCbData, resolveLabel,
      totalPagesOf, lookupA, Keyboard.cells]
  · intro cid aid n hc ha hac
    rw [show ("a:" ++ cid ++ "/" ++ aid ++ ":"
        ++ payloadToStr (some [("id", JVal.num n)]) none)
      = encodeActionToken cid aid (payloadToStr (some [("id", JVal.num n)]) none)
      from rfl]
    rw [show payloadToStr (some [("id", JVal.num n)]) none = intStr n from rfl]
    rw [decodeActionPayloadD_encode cid aid (intStr n) hc ha hac (slash_not_in_intStr n)]
    exact decodePayloadStr_num n

/-- Witness for C10 at a concrete action layout and payload. -/
theorem C10_payload_inheritance_witness :
    (buildKeyboard "act_1"
        { elements := [.button { label := .lit "Go", inlineHandler := true }],
          maxPerRow := 0 }
        {} 1 [] none (some [("id", JVal.num 9)])).keyboard.cells
      = [.push "Go" ("ai:" ++ ("a" ++ "act_1" ++ "_" ++ natStr 0) ++ "/" ++ "act_1" ++ ":"
          ++ payloadToStr (some [("id", JVal.num 9)]) none)]
    ∧ decodeActionPayloadD ("a:" ++ "child" ++ "/" ++ "act_1" ++ ":"
        ++ payloadToStr (some [("id", JVal.num 9)]) none)
      = some [("id", JVal.num 9)] := by
  exact ⟨C10_payload_inheritance.1 "act_1" "Go" [("id", JVal.num 9)] {} 1 [] (by rfl),
    C10_payload_inheritance.2.2.2.2 "child" "act_1" 9 (by decide) (by decide) (by decide)⟩
